import Mathlib

/-!
# Task scheduler of `lib/taskScheduler.js`

A shallow embedding of the scheduler (`TaskQueue`, `TaskScheduler`, `nextTask`,
`numTasksOutstanding`, `maxConcurrentTasks`, `countActiveTasks`) and of the two capability
builders (`lib/chromeCapabilityBuilder.js`, `lib/firefoxCapabilityBuilder.js`), followed by the
properties proved about them.

Modelling conventions.

* JavaScript objects are mutated in place; here every operation takes the scheduler value and
  returns the updated one.  A `TaskQueue` object is identified by its position in `taskQueues`
  (the array is filled by the constructor and never resized or reordered afterwards).
* JavaScript numbers that the code only counts up from `0` (`specsIndex`, `rotationIndex`, array
  lengths) are `Nat`; numbers that come from the configuration or can be decremented
  (`maxInstances`, `count`, `maxSessions`, `numRunningInstances`) are `Int`.  Only integral values
  are modelled.
* `taskId` is the number `rotatedIndex + 1` when the queue has at most one spec list and a
  string otherwise (`taskId += stringIndex`); `TaskId` keeps the two apart, and `TaskId.asString`
  is the string that a concatenation makes of it.
* `capabilityBuilders` is a plain object literal, so a lookup also finds the members it inherits
  from `Object.prototype`; such a member is truthy and has no `build`, so calling
  `capabilityBuilder.build` raises a `TypeError`.
* The promise returned by `nextTask` is modelled by the value it is resolved with.
* `ConfigParser` (`lib/configParser.js`) reads the file system; its two functions used by the
  constructor are parameters of the model.
-/

namespace Protractor

/-! ## Capability descriptors -/

/-- The `cxstudioOptions` object read by the capability builders. -/
structure CxstudioOptions where
  userAgent : Option String
  downloadDirectory : Option String
deriving DecidableEq, Repr

/-- The object stored under `chromeOptions.prefs.download`. -/
structure DownloadPrefs where
  prompt_for_download : Option Bool
  default_directory : Option String
deriving DecidableEq, Repr

/-- The object stored under `chromeOptions.prefs`. -/
structure ChromePrefs where
  download : Option DownloadPrefs
deriving DecidableEq, Repr

/-- The `chromeOptions` object of a capability descriptor (`args` stands for what a
configuration may have put there besides `prefs`). -/
structure ChromeOptions where
  args : List String
  prefs : Option ChromePrefs
deriving DecidableEq, Repr

/-- A value given to `FirefoxProfile.setPreference`. -/
inductive PrefValue where
  | str (s : String)
  | num (n : Int)
  | bool (b : Bool)
deriving DecidableEq, Repr

/-- One entry of `config.multiCapabilities`: the fields read or written by the scheduler and the
builders.  `none` stands for an absent (`undefined`) property.  `firefox_profile` holds the
encoded profile, represented by the list of preferences it was encoded from. -/
structure Capabilities where
  browserName : Option String
  maxInstances : Option Int
  shardTestFiles : Bool
  count : Option Int
  specs : Option (List String)
  exclude : Option (List String)
  cxstudioOptions : Option CxstudioOptions
  chromeOptions : Option ChromeOptions
  firefox_profile : Option (List (String × PrefValue))
deriving DecidableEq, Repr

/-- The parsed configuration handed to the `TaskScheduler` constructor. -/
structure Config where
  specs : List String
  exclude : List String
  configDir : Option String
  multiCapabilities : List Capabilities
  maxSessions : Option Int
deriving DecidableEq, Repr

/-- The two functions of `lib/configParser.js` called by the constructor.
`resolveFilePatterns patterns omitWarnings relativeTo` expands file patterns into paths and
`getSpecs config` selects the spec patterns of the configuration. -/
structure ConfigParser where
  resolveFilePatterns : List String → Bool → Option String → List String
  getSpecs : Config → List String

/-- JavaScript `v || d` on an optional number: `undefined` and `0` are falsy. -/
def jsOr (v : Option Int) (d : Int) : Int :=
  match v with
  | none => d
  | some n => if n = 0 then d else n

/-- JavaScript string conversion of an optional string inside a concatenation. -/
def jsString (v : Option String) : String :=
  match v with
  | none => "undefined"
  | some s => s

/-! ## `TaskQueue` and the constructor of `TaskScheduler` -/

/-- A queue of specs for a particular capability (`TaskQueue`, lines 19-25). -/
structure TaskQueue where
  capabilities : Capabilities
  numRunningInstances : Int
  maxInstance : Int
  specsIndex : Nat
  specLists : List (List String)
deriving DecidableEq, Repr

/-- The `TaskQueue` constructor. -/
def TaskQueue.new (capabilities : Capabilities) (specLists : List (List String)) : TaskQueue :=
  { capabilities := capabilities
    numRunningInstances := 0
    maxInstance := jsOr capabilities.maxInstances 1
    specsIndex := 0
    specLists := specLists }

/-- The scheduler object: its queues, the configuration and the rotation index. -/
structure TaskScheduler where
  taskQueues : List TaskQueue
  config : Config
  rotationIndex : Nat
deriving DecidableEq, Repr

/-- The variable `allSpecs` of the constructor (lines 39-43). -/
def allSpecs (cp : ConfigParser) (config : Config) : List String :=
  let excludes := cp.resolveFilePatterns config.exclude true config.configDir
  (cp.resolveFilePatterns (cp.getSpecs config) false config.configDir).filter
    (fun path => !excludes.contains path)

/-- The variable `capabilitiesSpecs` of one capability entry after lines 47-61. -/
def capabilitiesSpecs (cp : ConfigParser) (config : Config) (capabilities : Capabilities) :
    List String :=
  let capabilitiesSpecs := allSpecs cp config
  let capabilitiesSpecs :=
    match capabilities.specs with
    | some specs => capabilitiesSpecs ++ cp.resolveFilePatterns specs false config.configDir
    | none => capabilitiesSpecs
  match capabilities.exclude with
  | some exclude =>
    let capabilitiesSpecExcludes := cp.resolveFilePatterns exclude true config.configDir
    (cp.resolveFilePatterns capabilitiesSpecs false none).filter
      (fun path => !capabilitiesSpecExcludes.contains path)
  | none => capabilitiesSpecs

/-- The variable `specLists` of one capability entry (lines 63-73): one singleton list per spec
file when sharding, one list with all spec files otherwise. -/
def specLists (cp : ConfigParser) (config : Config) (capabilities : Capabilities) :
    List (List String) :=
  if capabilities.shardTestFiles then
    (capabilitiesSpecs cp config capabilities).map (fun spec => [spec])
  else
    [capabilitiesSpecs cp config capabilities]

/-- The assignment `capabilities.count = capabilities.count || 1` (line 75). -/
def setCount (capabilities : Capabilities) : Capabilities :=
  { capabilities with count := some (jsOr capabilities.count 1) }

/-- The queues pushed for one capability entry (lines 75-79): `count` queues, each a new
`TaskQueue` over the same `capabilities` and `specLists`. -/
def queuesFor (cp : ConfigParser) (config : Config) (capabilities : Capabilities) :
    List TaskQueue :=
  List.replicate (jsOr capabilities.count 1).toNat
    (TaskQueue.new (setCount capabilities) (specLists cp config capabilities))

/-- The `TaskScheduler` constructor (lines 38-84). -/
def TaskScheduler.new (cp : ConfigParser) (config : Config) : TaskScheduler :=
  { taskQueues :=
      config.multiCapabilities.foldl
        (fun taskQueues capabilities => taskQueues ++ queuesFor cp config capabilities) []
    config := { config with multiCapabilities := config.multiCapabilities.map setCount }
    rotationIndex := 0 }

/-! ## Task ids -/

/-- The value of `taskId`: the number `rotatedIndex + 1`, or the string made by
`taskId += stringIndex`. -/
inductive TaskId where
  | num (n : Nat)
  | str (s : String)
deriving DecidableEq, Repr

/-- JavaScript string conversion of a `taskId` inside a concatenation. -/
def TaskId.asString : TaskId → String
  | .num n => toString n
  | .str s => s

/-! ## Capability builders -/

/-- The `build` function of `lib/chromeCapabilityBuilder.js`.  Reading `userAgent` from an absent
`cxstudioOptions` raises a `TypeError`, returned here as `Except.error`. -/
def ChromeCapabilityBuilder.build (runCapability : Capabilities) (taskId : TaskId) :
    Except String Capabilities :=
  match runCapability.cxstudioOptions with
  | none => .error "TypeError"
  | some cxstudioOptions =>
    let downloadDirectory :=
      jsString cxstudioOptions.downloadDirectory ++ "\\" ++ taskId.asString
    .ok { runCapability with
          chromeOptions := some
            { args := []
              prefs := some
                { download := some
                    { prompt_for_download := some false
                      default_directory := some downloadDirectory } } } }

/-- The `build` function of `lib/firefoxCapabilityBuilder.js`. -/
def FirefoxCapabilityBuilder.build (runCapability : Capabilities) (taskId : TaskId) :
    Except String Capabilities :=
  match runCapability.cxstudioOptions with
  | none => .error "TypeError"
  | some cxstudioOptions =>
    let downloadDirectory :=
      jsString cxstudioOptions.downloadDirectory ++ "\\" ++ taskId.asString
    let firefoxProfile : List (String × PrefValue) :=
      [ ("browser.download.dir", .str downloadDirectory),
        ("browser.download.folderList", .num 2),
        ("browser.download.manager.showWhenStarting", .bool false),
        ("browser.download.defaultFolder", .str downloadDirectory),
        ("browser.helperApps.alwaysAsk.force", .bool false),
        ("browser.helperApps.neverAsk.saveToDisk", .str "application/octet-stream") ]
    .ok { runCapability with firefox_profile := some firefoxProfile }

/-- What a lookup in `capabilityBuilders` can find: one of the two builders, or a member that
the object literal inherits from `Object.prototype`, which is truthy and has no `build`. -/
inductive BuilderEntry where
  | builder (build : Capabilities → TaskId → Except String Capabilities)
  | inherited

/-- The property names that an object literal inherits from `Object.prototype`. -/
def objectPrototypeKeys : List String :=
  ["constructor", "__defineGetter__", "__defineSetter__", "hasOwnProperty", "__lookupGetter__",
    "__lookupSetter__", "isPrototypeOf", "propertyIsEnumerable", "toString", "valueOf",
    "__proto__", "toLocaleString"]

/-- The lookup `capabilityBuilders[runCapability.browserName]` (lines 13-16 and 127); `none` is
`undefined`. -/
def capabilityBuilders (browserName : Option String) : Option BuilderEntry :=
  if browserName = some "chrome" then some (.builder ChromeCapabilityBuilder.build)
  else if browserName = some "firefox" then some (.builder FirefoxCapabilityBuilder.build)
  else if browserName ∈ objectPrototypeKeys.map some then some .inherited
  else none

/-! ## `nextTask` -/

/-- The object `result` built by `nextTask`.  `queue` is the position in `taskQueues` of the
queue object captured by the closure `done`. -/
structure Task where
  capabilities : Capabilities
  specs : List String
  taskId : TaskId
  queue : Nat
deriving DecidableEq, Repr

/-- The outcome of one `nextTask` call: `null`; the promise, resolved with `result`; or the
`TypeError` raised on line 129, by a capability builder or by the call of a `build` that does
not exist, in which case the `result` object built on line 116 never reaches the caller. -/
inductive NextResult where
  | null
  | task (result : Task)
  | typeError (result : Task)
deriving DecidableEq, Repr

/-- The `do ... while (tempIndex != 0)` loop of lines 104-107.  The first argument bounds the
number of iterations; `tempIndex` decreases in every iteration that does not leave the loop, so
`tempIndex + 1` iterations always suffice (`shardSuffixLoop_succ`). -/
def shardSuffixLoop : Nat → Nat → String → String
  | 0, _, stringIndex => stringIndex
  | fuel + 1, tempIndex, stringIndex =>
    let stringIndex := String.singleton (Char.ofNat (97 + tempIndex % 26)) ++ stringIndex
    let tempIndex := tempIndex / 26
    if tempIndex ≠ 0 then shardSuffixLoop fuel tempIndex stringIndex else stringIndex

/-- The string `stringIndex` computed on lines 102-107 from `queue.specsIndex`. -/
def shardSuffix (specsIndex : Nat) : String :=
  shardSuffixLoop (specsIndex + 1) specsIndex ""

/-- The body of the `if` of `nextTask` (lines 97-140) for the queue `queue` found at position
`rotatedIndex`; `h` is the second conjunct of the guard on lines 95-96.  The deep copy
`JSON.parse(JSON.stringify(queue.capabilities))` of line 114 is the value `queue.capabilities`
itself: values are immutable here, so what a builder writes to `runCapability` never reaches the
queue.  A builder that raises does so after lines 97-112 have updated the scheduler. -/
def dispatch (s : TaskScheduler) (rotatedIndex : Nat) (queue : TaskQueue)
    (h : queue.specsIndex < queue.specLists.length) : NextResult × TaskScheduler :=
  let taskId : TaskId := .num (rotatedIndex + 1)
  let taskId : TaskId :=
    if queue.specLists.length > 1 then .str (taskId.asString ++ shardSuffix queue.specsIndex)
    else taskId
  let specs := queue.specLists[queue.specsIndex]
  let queue1 :=
    { queue with
      numRunningInstances := queue.numRunningInstances + 1
      specsIndex := queue.specsIndex + 1 }
  let s1 : TaskScheduler :=
    { s with
      rotationIndex := rotatedIndex + 1
      taskQueues := s.taskQueues.set rotatedIndex queue1 }
  let runCapability := queue.capabilities
  let result : Task :=
    { capabilities := runCapability, specs := specs, taskId := taskId, queue := rotatedIndex }
  match capabilityBuilders runCapability.browserName with
  | some (.builder build) =>
    match build runCapability taskId with
    | .ok capability => (.task { result with capabilities := capability }, s1)
    | .error _ => (.typeError result, s1)
  | some .inherited => (.typeError result, s1)
  | none => (.task result, s1)

/-- The `for` loop of `nextTask` (lines 92-142) from iteration `i` on, with `remaining`
iterations left, and the final `return null`.  The position `rotatedIndex` is a remainder modulo
the number of queues, hence always within the array: the `none` branch is never taken. -/
def nextTaskLoop (s : TaskScheduler) : Nat → Nat → NextResult × TaskScheduler
  | 0, _ => (.null, s)
  | remaining + 1, i =>
    let rotatedIndex := (i + s.rotationIndex) % s.taskQueues.length
    match s.taskQueues[rotatedIndex]? with
    | none => nextTaskLoop s remaining (i + 1)
    | some queue =>
      if h : queue.numRunningInstances < queue.maxInstance ∧
          queue.specsIndex < queue.specLists.length then
        dispatch s rotatedIndex queue h.2
      else
        nextTaskLoop s remaining (i + 1)

/-- `TaskScheduler.prototype.nextTask`. -/
def nextTask (s : TaskScheduler) : NextResult × TaskScheduler :=
  nextTaskLoop s s.taskQueues.length 0

/-- The callback `done` of a task: `--queue.numRunningInstances` on the captured queue. -/
def Task.done (t : Task) (s : TaskScheduler) : TaskScheduler :=
  match s.taskQueues[t.queue]? with
  | some queue =>
    { s with
      taskQueues := s.taskQueues.set t.queue
        { queue with numRunningInstances := queue.numRunningInstances - 1 } }
  | none => s

/-! ## Counters -/

/-- `TaskScheduler.prototype.numTasksOutstanding`. -/
def numTasksOutstanding (s : TaskScheduler) : Int :=
  s.taskQueues.foldl
    (fun count queue =>
      count + (queue.numRunningInstances + ((queue.specLists.length : Int) - queue.specsIndex)))
    0

/-- `TaskScheduler.prototype.maxConcurrentTasks`. -/
def maxConcurrentTasks (s : TaskScheduler) : Int :=
  match s.config.maxSessions with
  | some maxSessions =>
    if maxSessions ≠ 0 ∧ maxSessions > 0 then maxSessions
    else s.taskQueues.foldl
      (fun count queue => count + min queue.maxInstance (queue.specLists.length : Int)) 0
  | none =>
    s.taskQueues.foldl
      (fun count queue => count + min queue.maxInstance (queue.specLists.length : Int)) 0

/-- `TaskScheduler.prototype.countActiveTasks`. -/
def countActiveTasks (s : TaskScheduler) : Int :=
  s.taskQueues.foldl (fun count queue => count + queue.numRunningInstances) 0

/-! ## A caller of the scheduler -/

/-- A call made by the caller: `nextTask()`, or `done()` on the task at position `i` among the
tasks it holds. -/
inductive Call where
  | nextTask
  | done (i : Nat)
deriving DecidableEq, Repr

/-- The scheduler together with its caller: `tasks` are the tasks received from `nextTask` whose
`done` has not been called yet, `log` is the outcome of every `nextTask` call so far. -/
structure Driver where
  scheduler : TaskScheduler
  tasks : List Task
  log : List NextResult
deriving DecidableEq, Repr

/-- A caller that holds no task yet. -/
def Driver.start (s : TaskScheduler) : Driver :=
  { scheduler := s, tasks := [], log := [] }

/-- One call.  A task can only be released while the caller holds it, so `done` is called at most
once per task. -/
def Driver.step (d : Driver) : Call → Driver
  | .nextTask =>
    match nextTask d.scheduler with
    | (.task result, s) =>
      { scheduler := s, tasks := d.tasks ++ [result], log := d.log ++ [.task result] }
    | (r, s) => { d with scheduler := s, log := d.log ++ [r] }
  | .done i =>
    match d.tasks[i]? with
    | some t => { d with scheduler := t.done d.scheduler, tasks := d.tasks.eraseIdx i }
    | none => d

/-- A sequence of calls. -/
def Driver.run (d : Driver) (calls : List Call) : Driver :=
  calls.foldl Driver.step d

/-! ## Vocabulary of the statements -/

/-- The guard of `nextTask` (lines 95-96) as a predicate on a queue. -/
def TaskQueue.eligible (queue : TaskQueue) : Prop :=
  queue.numRunningInstances < queue.maxInstance ∧ queue.specsIndex < queue.specLists.length

instance TaskQueue.decidableEligible (queue : TaskQueue) : Decidable queue.eligible := by
  unfold TaskQueue.eligible; infer_instance

/-- The queue after the increments of lines 98 and 112. -/
def TaskQueue.claimed (queue : TaskQueue) : TaskQueue :=
  { queue with
    numRunningInstances := queue.numRunningInstances + 1
    specsIndex := queue.specsIndex + 1 }

/-- The summand of `numTasksOutstanding` for one queue (line 155). -/
def TaskQueue.outstanding (queue : TaskQueue) : Int :=
  queue.numRunningInstances + ((queue.specLists.length : Int) - queue.specsIndex)

/-- The `result` object built by a `nextTask` call, if it got that far. -/
def NextResult.result? : NextResult → Option Task
  | .null => none
  | .task result => some result
  | .typeError result => some result

/-- The value of `taskId` computed on lines 99-110 for the queue at position `rotatedIndex`. -/
def taskIdOf (rotatedIndex : Nat) (queue : TaskQueue) : TaskId :=
  if queue.specLists.length > 1 then
    .str (toString (rotatedIndex + 1) ++ shardSuffix queue.specsIndex)
  else
    .num (rotatedIndex + 1)

/-- The capability descriptor on which line 129 does not raise: its `browserName` is not the
name of an inherited member, and either it is not the name of a builder or `cxstudioOptions` is
present. -/
def Capabilities.buildable (capabilities : Capabilities) : Prop :=
  capabilities.browserName ∉ objectPrototypeKeys.map some ∧
    ((capabilities.browserName ≠ some "chrome" ∧ capabilities.browserName ≠ some "firefox") ∨
      capabilities.cxstudioOptions ≠ none)

instance Capabilities.decidableBuildable (capabilities : Capabilities) :
    Decidable capabilities.buildable := by
  unfold Capabilities.buildable; infer_instance

/-- The descriptor carried by the task: `runCapability` after the builder selected by
`browserName`, if any, has written to it. -/
def builtCapability (runCapability : Capabilities) (taskId : TaskId) : Capabilities :=
  match capabilityBuilders runCapability.browserName with
  | some (.builder build) =>
    match build runCapability taskId with
    | .ok capability => capability
    | .error _ => runCapability
  | some .inherited => runCapability
  | none => runCapability

/-- The position visited by iteration `i` of the loop of `nextTask` (line 93). -/
def rotatedIndex (s : TaskScheduler) (i : Nat) : Nat :=
  (i + s.rotationIndex) % s.taskQueues.length

/-! ## Example configurations -/

/-- A `ConfigParser` whose patterns are the paths themselves. -/
def exampleParser : ConfigParser :=
  { resolveFilePatterns := fun patterns _ _ => patterns
    getSpecs := fun config => config.specs }

/-- The capability entry with no property set. -/
def plainCapabilities : Capabilities :=
  { browserName := none
    maxInstances := none
    shardTestFiles := false
    count := none
    specs := none
    exclude := none
    cxstudioOptions := none
    chromeOptions := none
    firefox_profile := none }

/-- The configuration with the given spec files and capability entries. -/
def exampleConfig (specs : List String) (multiCapabilities : List Capabilities) : Config :=
  { specs := specs
    exclude := []
    configDir := none
    multiCapabilities := multiCapabilities
    maxSessions := none }

/-- The scheduler for `multiCapabilities: [{maxInstances: 2, shardTestFiles: true}]` over the
spec files `s1`, `s2`, `s3`. -/
def shardedScheduler : TaskScheduler :=
  TaskScheduler.new exampleParser
    (exampleConfig ["s1", "s2", "s3"]
      [{ plainCapabilities with maxInstances := some 2, shardTestFiles := true }])

/-- The first task returned by `shardedScheduler`. -/
def shardedTask1a : Task :=
  { capabilities :=
      { plainCapabilities with maxInstances := some 2, shardTestFiles := true, count := some 1 }
    specs := ["s1"]
    taskId := .str "1a"
    queue := 0 }

/-- The calls of a caller that asks for a task `n` times and releases each task it receives
before asking again. -/
def releaseEach : Nat → List Call
  | 0 => []
  | n + 1 => Call.nextTask :: Call.done 0 :: releaseEach n

/-- The positions of the queues from which the logged `nextTask` calls dispatched. -/
def servedQueues (log : List NextResult) : List Nat :=
  log.filterMap (fun r => r.result?.map Task.queue)

/-- The `taskId` of every task in a log (`-` for a call that returned no task). -/
def taskIds (log : List NextResult) : List String :=
  log.map (fun r =>
    match r with
    | .task result => result.taskId.asString
    | _ => "-")

/-- The scheduler for `multiCapabilities: [{shardTestFiles: true}]` over 28 spec files. -/
def longShardedScheduler : TaskScheduler :=
  TaskScheduler.new exampleParser
    (exampleConfig ((List.range 28).map (fun i => "s" ++ toString i))
      [{ plainCapabilities with shardTestFiles := true }])

/-- The number of tasks dispatched from the queue at position `i` that the caller holds, that
is, has received and not released. -/
def Driver.held (d : Driver) (i : Nat) : Nat :=
  d.tasks.countP (fun t => t.queue = i)

/-- The task for shard `m` of a sharded lane that is the first queue of the scheduler: the spec
file at position `m` alone, under the task id `1` followed by the suffix of `m`. -/
def shardTask (capabilities : Capabilities) (files : List String) (m : Nat) : Task :=
  { capabilities := builtCapability capabilities (.str ("1" ++ shardSuffix m))
    specs := files[m]?.toList
    taskId := .str ("1" ++ shardSuffix m)
    queue := 0 }

/-- The scheduler for three capability entries `{shardTestFiles: true}` over three spec
files. -/
def threeLaneScheduler : TaskScheduler :=
  TaskScheduler.new exampleParser
    (exampleConfig ["s1", "s2", "s3"]
      [{ plainCapabilities with shardTestFiles := true },
        { plainCapabilities with shardTestFiles := true },
        { plainCapabilities with shardTestFiles := true }])

/-- The configuration `multiCapabilities: [{count: 2, maxInstances: 1}, {}]` over five spec
files. -/
def replicaConfig : Config :=
  exampleConfig ["s1", "s2", "s3", "s4", "s5"]
    [{ plainCapabilities with count := some 2, maxInstances := some 1 }, plainCapabilities]

/-- The `result` object that `nextTask` builds when it dispatches from the queue `queue` found at
position `rotatedIndex`. -/
def expectedTask (rotatedIndex : Nat) (queue : TaskQueue) : Task :=
  { capabilities := builtCapability queue.capabilities (taskIdOf rotatedIndex queue)
    specs := (queue.specLists[queue.specsIndex]?).getD []
    taskId := taskIdOf rotatedIndex queue
    queue := rotatedIndex }

/-- The queue after `--queue.numRunningInstances`. -/
def TaskQueue.released (queue : TaskQueue) : TaskQueue :=
  { queue with numRunningInstances := queue.numRunningInstances - 1 }

/-- The tasks that the logged `nextTask` calls returned, in order. -/
def returnedTasks (log : List NextResult) : List Task :=
  log.filterMap (fun r =>
    match r with
    | .task result => some result
    | _ => none)

/-- The configuration `multiCapabilities: [{}]` with no spec file. -/
def emptyLaneConfig : Config :=
  exampleConfig [] [plainCapabilities]

/-- The only task of an unsharded lane without spec files that is the first queue. -/
def emptyLaneTask (capabilities : Capabilities) : Task :=
  { capabilities := builtCapability capabilities (.num 1)
    specs := []
    taskId := .num 1
    queue := 0 }

/-- The scheduler for `multiCapabilities: [{browserName: 'chrome'}]` over one spec file: the
capability entry has no `cxstudioOptions`. -/
def chromeScheduler : TaskScheduler :=
  TaskScheduler.new exampleParser
    (exampleConfig ["s1"] [{ plainCapabilities with browserName := some "chrome" }])

/-- The scheduler for `multiCapabilities: [{browserName: 'firefox'}]` over one spec file. -/
def firefoxScheduler : TaskScheduler :=
  TaskScheduler.new exampleParser
    (exampleConfig ["s1"] [{ plainCapabilities with browserName := some "firefox" }])

/-- A chrome capability entry with `cxstudioOptions: {downloadDirectory: 'C:\\dl'}`, sharded,
with `maxInstances: 2` and with `chromeOptions: {args: ['--headless']}` already present. -/
def chromeCapabilities : Capabilities :=
  { plainCapabilities with
    browserName := some "chrome"
    maxInstances := some 2
    shardTestFiles := true
    cxstudioOptions := some { userAgent := none, downloadDirectory := some "C:\\dl" }
    chromeOptions := some { args := ["--headless"], prefs := none } }

/-- The scheduler for `multiCapabilities: [chromeCapabilities]` over two spec files. -/
def enrichedScheduler : TaskScheduler :=
  TaskScheduler.new exampleParser (exampleConfig ["s1", "s2"] [chromeCapabilities])

/-- The tasks returned from the queue at position `i` by the logged `nextTask` calls, in
order. -/
def returnedFrom (i : Nat) (log : List NextResult) : List Task :=
  (returnedTasks log).filter (fun t => t.queue = i)

/-- The scheduler for `multiCapabilities: [{}]` over one spec file: one unsharded lane. -/
def unshardedScheduler : TaskScheduler :=
  TaskScheduler.new exampleParser (exampleConfig ["s1"] [plainCapabilities])

/-- The scheduler for `multiCapabilities: [{browserName: 'chrome', maxInstances: 2,
shardTestFiles: true}]` over the spec files `s1`, `s2`, `s3`: the sharded example lane with a
chrome entry that has no `cxstudioOptions`. -/
def chromeShardedScheduler : TaskScheduler :=
  TaskScheduler.new exampleParser
    (exampleConfig ["s1", "s2", "s3"]
      [{ plainCapabilities with
          browserName := some "chrome", maxInstances := some 2, shardTestFiles := true }])

/-- The scheduler for `multiCapabilities: [{browserName: 'chrome'}]` with no spec file. -/
def chromeEmptyLaneScheduler : TaskScheduler :=
  TaskScheduler.new exampleParser
    (exampleConfig [] [{ plainCapabilities with browserName := some "chrome" }])

/-- The scheduler for `multiCapabilities: [{browserName: 'toString'}]` with no spec file. -/
def inheritedEmptyLaneScheduler : TaskScheduler :=
  TaskScheduler.new exampleParser
    (exampleConfig [] [{ plainCapabilities with browserName := some "toString" }])

/-! # Properties -/

/-! ## Sums over the queues -/

theorem foldl_add_eq_sum {α : Type} (f : α → Int) (l : List α) (a : Int) :
    l.foldl (fun count x => count + f x) a = a + (l.map f).sum := by
  induction l generalizing a with
  | nil => simp
  | cons x xs ih => simp [ih, add_assoc]

theorem sum_map_set {α : Type} (f : α → Int) (l : List α) (i : Nat) (q x : α)
    (h : l[i]? = some q) : ((l.set i x).map f).sum = (l.map f).sum - f q + f x := by
  induction l generalizing i with
  | nil => simp at h
  | cons y ys ih =>
    cases i with
    | zero =>
      simp at h
      subst h
      simp
      omega
    | succ i =>
      simp only [List.getElem?_cons_succ] at h
      simp only [List.set_cons_succ, List.map_cons, List.sum_cons, ih i h]
      omega

theorem numTasksOutstanding_eq_sum (s : TaskScheduler) :
    numTasksOutstanding s = (s.taskQueues.map TaskQueue.outstanding).sum := by
  have h := foldl_add_eq_sum TaskQueue.outstanding s.taskQueues 0
  simpa [numTasksOutstanding, TaskQueue.outstanding] using h

/-! ## The body of the loop -/

theorem dispatch_snd (s : TaskScheduler) (r : Nat) (q : TaskQueue)
    (h : q.specsIndex < q.specLists.length) :
    (dispatch s r q h).2 =
      { s with rotationIndex := r + 1, taskQueues := s.taskQueues.set r q.claimed } := by
  unfold dispatch
  simp only [TaskQueue.claimed]
  split
  · split <;> rfl
  · rfl
  · rfl

theorem dispatch_fst_ne_null (s : TaskScheduler) (r : Nat) (q : TaskQueue)
    (h : q.specsIndex < q.specLists.length) : (dispatch s r q h).1 ≠ .null := by
  unfold dispatch
  simp only
  split
  · split <;> simp
  · simp
  · simp

theorem dispatch_result (s : TaskScheduler) (r : Nat) (q : TaskQueue)
    (h : q.specsIndex < q.specLists.length) :
    ∃ result, (dispatch s r q h).1.result? = some result ∧ result.queue = r ∧
      result.specs = q.specLists[q.specsIndex] ∧ result.taskId = taskIdOf r q := by
  unfold dispatch taskIdOf
  simp only
  split
  · split
    · exact ⟨_, rfl, rfl, rfl, rfl⟩
    · exact ⟨_, rfl, rfl, rfl, rfl⟩
  · exact ⟨_, rfl, rfl, rfl, rfl⟩
  · exact ⟨_, rfl, rfl, rfl, rfl⟩

/-- On a buildable descriptor the lookup finds nothing, or a builder that succeeds. -/
theorem lookup_of_buildable (c : Capabilities) (taskId : TaskId) (hb : c.buildable) :
    capabilityBuilders c.browserName = none ∨
      ∃ build c1, capabilityBuilders c.browserName = some (.builder build) ∧
        build c taskId = .ok c1 := by
  unfold capabilityBuilders
  unfold Capabilities.buildable at hb
  obtain ⟨hkey, hb⟩ := hb
  by_cases h1 : c.browserName = some "chrome"
  · right
    rw [if_pos h1]
    cases hb with
    | inl hb => exact absurd h1 hb.1
    | inr hb =>
      cases hcx : c.cxstudioOptions with
      | none => exact absurd hcx hb
      | some o =>
        have hok : ∃ c1, ChromeCapabilityBuilder.build c taskId = .ok c1 := by
          simp [ChromeCapabilityBuilder.build, hcx]
        obtain ⟨c1, hc1⟩ := hok
        exact ⟨_, c1, rfl, hc1⟩
  · rw [if_neg h1]
    by_cases h2 : c.browserName = some "firefox"
    · right
      rw [if_pos h2]
      cases hb with
      | inl hb => exact absurd h2 hb.2
      | inr hb =>
        cases hcx : c.cxstudioOptions with
        | none => exact absurd hcx hb
        | some o =>
          have hok : ∃ c1, FirefoxCapabilityBuilder.build c taskId = .ok c1 := by
            simp [FirefoxCapabilityBuilder.build, hcx]
          obtain ⟨c1, hc1⟩ := hok
          exact ⟨_, c1, rfl, hc1⟩
    · left
      rw [if_neg h2, if_neg hkey]

theorem dispatch_fst_of_buildable (s : TaskScheduler) (r : Nat) (q : TaskQueue)
    (h : q.specsIndex < q.specLists.length) (hb : q.capabilities.buildable) :
    (dispatch s r q h).1 =
      .task { capabilities := builtCapability q.capabilities (taskIdOf r q)
              specs := q.specLists[q.specsIndex]
              taskId := taskIdOf r q
              queue := r } := by
  have hid : (if q.specLists.length > 1 then
      TaskId.str ((TaskId.num (r + 1)).asString ++ shardSuffix q.specsIndex)
      else TaskId.num (r + 1)) = taskIdOf r q := rfl
  unfold dispatch builtCapability
  simp only [hid]
  rcases lookup_of_buildable q.capabilities (taskIdOf r q) hb with h1 | ⟨build, c1, h1, h2⟩
  · simp only [h1]
  · simp only [h1, h2]

/-! ## The scan of `nextTask` -/

theorem nextTaskLoop_spec (s : TaskScheduler) (remaining i : Nat) :
    (∃ j q, ∃ h : q.eligible, i ≤ j ∧ j < i + remaining ∧
        s.taskQueues[rotatedIndex s j]? = some q ∧
        (∀ k, i ≤ k → k < j → ∀ q1, s.taskQueues[rotatedIndex s k]? = some q1 → ¬ q1.eligible) ∧
        nextTaskLoop s remaining i = dispatch s (rotatedIndex s j) q h.2) ∨
    ((∀ k, i ≤ k → k < i + remaining →
        ∀ q1, s.taskQueues[rotatedIndex s k]? = some q1 → ¬ q1.eligible) ∧
      nextTaskLoop s remaining i = (.null, s)) := by
  induction remaining generalizing i with
  | zero =>
    right
    refine ⟨?_, rfl⟩
    intro k h1 h2
    omega
  | succ n ih =>
    unfold nextTaskLoop
    simp only
    cases hq : s.taskQueues[(i + s.rotationIndex) % s.taskQueues.length]? with
    | none =>
      simp only
      rcases ih (i + 1) with ⟨j, q, h, h1, h2, h3, h4, h5⟩ | ⟨h1, h2⟩
      · left
        refine ⟨j, q, h, by omega, by omega, h3, ?_, h5⟩
        intro k hk1 hk2 q1 hq1
        by_cases hki : k = i
        · subst hki
          simp [rotatedIndex, hq] at hq1
        · exact h4 k (by omega) hk2 q1 hq1
      · right
        refine ⟨?_, h2⟩
        intro k hk1 hk2 q1 hq1
        by_cases hki : k = i
        · subst hki
          simp [rotatedIndex, hq] at hq1
        · exact h1 k (by omega) (by omega) q1 hq1
    | some q =>
      simp only
      by_cases he : q.numRunningInstances < q.maxInstance ∧ q.specsIndex < q.specLists.length
      · left
        rw [dif_pos he]
        refine ⟨i, q, he, le_refl _, by omega, hq, ?_, rfl⟩
        intro k hk1 hk2
        omega
      · rw [dif_neg he]
        rcases ih (i + 1) with ⟨j, q0, h, h1, h2, h3, h4, h5⟩ | ⟨h1, h2⟩
        · left
          refine ⟨j, q0, h, by omega, by omega, h3, ?_, h5⟩
          intro k hk1 hk2 q1 hq1
          by_cases hki : k = i
          · subst hki
            simp only [rotatedIndex, hq] at hq1
            injection hq1 with hq1
            subst hq1
            exact he
          · exact h4 k (by omega) hk2 q1 hq1
        · right
          refine ⟨?_, h2⟩
          intro k hk1 hk2 q1 hq1
          by_cases hki : k = i
          · subst hki
            simp only [rotatedIndex, hq] at hq1
            injection hq1 with hq1
            subst hq1
            exact he
          · exact h1 k (by omega) (by omega) q1 hq1

theorem rotatedIndex_lt (s : TaskScheduler) (i : Nat) (h : 0 < s.taskQueues.length) :
    rotatedIndex s i < s.taskQueues.length :=
  Nat.mod_lt _ h

theorem rotatedIndex_surj (s : TaskScheduler) (m : Nat) (h : m < s.taskQueues.length) :
    ∃ k, k < s.taskQueues.length ∧ rotatedIndex s k = m := by
  have hpos : 0 < s.taskQueues.length := by omega
  have hr : s.rotationIndex % s.taskQueues.length < s.taskQueues.length := Nat.mod_lt _ hpos
  refine ⟨(m + s.taskQueues.length - s.rotationIndex % s.taskQueues.length) % s.taskQueues.length,
    Nat.mod_lt _ hpos, ?_⟩
  unfold rotatedIndex
  rw [Nat.mod_add_mod, ← Nat.add_mod_mod]
  have e : m + s.taskQueues.length - s.rotationIndex % s.taskQueues.length +
      s.rotationIndex % s.taskQueues.length = m + s.taskQueues.length := by omega
  rw [e, Nat.add_mod_right, Nat.mod_eq_of_lt h]

theorem nextTask_cases (s : TaskScheduler) :
    (∃ j q, ∃ h : q.eligible, j < s.taskQueues.length ∧
        s.taskQueues[rotatedIndex s j]? = some q ∧
        (∀ k, k < j → ∀ q1, s.taskQueues[rotatedIndex s k]? = some q1 → ¬ q1.eligible) ∧
        nextTask s = dispatch s (rotatedIndex s j) q h.2) ∨
    ((∀ q ∈ s.taskQueues, ¬ q.eligible) ∧ nextTask s = (.null, s)) := by
  rcases nextTaskLoop_spec s s.taskQueues.length 0 with ⟨j, q, h, _, h2, h3, h4, h5⟩ | ⟨h1, h2⟩
  · left
    exact ⟨j, q, h, by omega, h3, fun k hk => h4 k (Nat.zero_le _) hk, h5⟩
  · right
    refine ⟨?_, h2⟩
    intro q hq
    obtain ⟨m, hm, hmq⟩ := List.getElem_of_mem hq
    obtain ⟨k, hk, hkm⟩ := rotatedIndex_surj s m hm
    apply h1 k (Nat.zero_le _) (by omega) q
    rw [hkm, List.getElem?_eq_getElem hm, hmq]

theorem outstanding_claimed (q : TaskQueue) : q.claimed.outstanding = q.outstanding := by
  simp only [TaskQueue.outstanding, TaskQueue.claimed]
  push_cast
  ring

theorem numTasksOutstanding_nextTask (s : TaskScheduler) :
    numTasksOutstanding (nextTask s).2 = numTasksOutstanding s := by
  rcases nextTask_cases s with ⟨j, q, h, _, h3, _, h5⟩ | ⟨_, h2⟩
  · rw [h5, dispatch_snd, numTasksOutstanding_eq_sum, numTasksOutstanding_eq_sum]
    simp only
    rw [sum_map_set TaskQueue.outstanding _ _ q _ h3, outstanding_claimed]
    ring
  · rw [h2]

theorem nextTask_length (s : TaskScheduler) :
    (nextTask s).2.taskQueues.length = s.taskQueues.length := by
  rcases nextTask_cases s with ⟨j, q, h, _, _, _, h5⟩ | ⟨_, h2⟩
  · rw [h5, dispatch_snd]
    simp
  · rw [h2]

theorem nextTask_result_queue_lt (s : TaskScheduler) (t : Task)
    (h : (nextTask s).1.result? = some t) : t.queue < s.taskQueues.length := by
  rcases nextTask_cases s with ⟨j, q, hq, hj, _, _, h5⟩ | ⟨_, h2⟩
  · obtain ⟨r, hr1, hr2, _, _⟩ := dispatch_result s (rotatedIndex s j) q hq.2
    rw [h5, hr1] at h
    injection h with h
    subst h
    rw [hr2]
    exact rotatedIndex_lt s j (by omega)
  · rw [h2] at h
    simp [NextResult.result?] at h

theorem numTasksOutstanding_done (t : Task) (s : TaskScheduler)
    (h : t.queue < s.taskQueues.length) :
    numTasksOutstanding (t.done s) = numTasksOutstanding s - 1 := by
  unfold Task.done
  rw [List.getElem?_eq_getElem h]
  simp only
  rw [numTasksOutstanding_eq_sum, numTasksOutstanding_eq_sum]
  simp only
  rw [sum_map_set TaskQueue.outstanding _ _ _ _ (List.getElem?_eq_getElem h)]
  simp only [TaskQueue.outstanding]
  ring

/-- C1 (as amended): in every scheduler state in which `nextTask` returns a task,
`numTasksOutstanding()` right after the call equals its value right before the call: the task
moves from "left to run" to "currently running", both of which the counter includes. -/
theorem nextTask_preserves_numTasksOutstanding (s s1 : TaskScheduler) (t : Task)
    (h : nextTask s = (.task t, s1)) :
    numTasksOutstanding s1 = numTasksOutstanding s := by
  have h1 := numTasksOutstanding_nextTask s
  rw [h] at h1
  exact h1

/-- Witness of C1 (as amended) on the sharded example scheduler. -/
theorem nextTask_preserves_numTasksOutstanding_witness :
    numTasksOutstanding (nextTask shardedScheduler).2 = numTasksOutstanding shardedScheduler :=
  nextTask_preserves_numTasksOutstanding shardedScheduler (nextTask shardedScheduler).2
    shardedTask1a (by decide)

/-- C1 as stated fails: on the sharded example scheduler `nextTask` returns the task `1a`, and
`numTasksOutstanding()` is `3` before the call and still `3` after it, not `2`. -/
theorem nextTask_numTasksOutstanding_counterexample :
    (nextTask shardedScheduler).1 =
         .task shardedTask1a ∧
      numTasksOutstanding shardedScheduler = 3 ∧
      numTasksOutstanding (nextTask shardedScheduler).2 = 3 ∧
      numTasksOutstanding (nextTask shardedScheduler).2 ≠
        numTasksOutstanding shardedScheduler - 1 := by
  decide

/-- C2 (as amended): for every task returned by `nextTask`, calling its `done` callback, right
away or in any later state of the scheduler, decreases `numTasksOutstanding()` by exactly
one. -/
theorem done_decrements_numTasksOutstanding (s s1 : TaskScheduler) (t : Task)
    (h : nextTask s = (.task t, s1)) (s2 : TaskScheduler)
    (hlen : s2.taskQueues.length = s.taskQueues.length) :
    numTasksOutstanding (t.done s2) = numTasksOutstanding s2 - 1 := by
  apply numTasksOutstanding_done
  rw [hlen]
  apply nextTask_result_queue_lt
  rw [h]
  rfl

/-- Witness of C2 (as amended): the task `1a` of the sharded example scheduler, released right
after the call that returned it. -/
theorem done_decrements_numTasksOutstanding_witness :
    numTasksOutstanding
        (Task.done shardedTask1a (nextTask shardedScheduler).2) =
      numTasksOutstanding (nextTask shardedScheduler).2 - 1 :=
  done_decrements_numTasksOutstanding shardedScheduler (nextTask shardedScheduler).2 shardedTask1a
    (by decide) (nextTask shardedScheduler).2 (by decide)

/-- C2 as stated fails: releasing the task `1a` returned by the sharded example scheduler takes
`numTasksOutstanding()` from `3` to `2`. -/
theorem done_numTasksOutstanding_counterexample :
    (nextTask shardedScheduler).1 =
         .task shardedTask1a ∧
      numTasksOutstanding (nextTask shardedScheduler).2 = 3 ∧
      numTasksOutstanding
        (Task.done shardedTask1a (nextTask shardedScheduler).2) = 2 := by
  decide

/-! ## The shard suffix -/

theorem shardSuffixLoop_data (fuel tempIndex : Nat) (stringIndex : String)
    (h : tempIndex < fuel) :
    (shardSuffixLoop fuel tempIndex stringIndex).data =
      (if tempIndex = 0 then [Char.ofNat 97]
        else (Nat.digits 26 tempIndex).reverse.map (fun d => Char.ofNat (97 + d))) ++
        stringIndex.data := by
  induction fuel generalizing tempIndex stringIndex with
  | zero => omega
  | succ fuel ih =>
    unfold shardSuffixLoop
    simp only
    by_cases h0 : tempIndex / 26 = 0
    · have hlt : tempIndex < 26 := by omega
      simp only [h0, ne_eq, not_true_eq_false, if_false]
      by_cases ht : tempIndex = 0
      · subst ht
        simp
      · have hpos : 0 < tempIndex := Nat.pos_of_ne_zero ht
        rw [if_neg ht, Nat.digits_def' (by decide) hpos, h0]
        simp [Nat.mod_eq_of_lt hlt]
    · have hpos : 0 < tempIndex := by
        rcases Nat.eq_zero_or_pos tempIndex with h1 | h1
        · subst h1
          simp at h0
        · exact h1
      have hne : tempIndex ≠ 0 := by omega
      have hlt : tempIndex / 26 < fuel := by omega
      rw [if_pos h0, ih _ _ hlt, if_neg h0, if_neg hne, Nat.digits_def' (by decide) hpos]
      simp

theorem shardSuffix_data (n : Nat) :
    (shardSuffix n).data =
      if n = 0 then [Char.ofNat 97]
      else (Nat.digits 26 n).reverse.map (fun d => Char.ofNat (97 + d)) := by
  unfold shardSuffix
  rw [shardSuffixLoop_data _ _ _ (Nat.lt_succ_self n)]
  show _ ++ [] = _
  rw [List.append_nil]

/-- The do-while loop unfolds as in the source whenever the iteration bound exceeds
`tempIndex`, which is the case for the bound `specsIndex + 1` used by `shardSuffix`. -/
theorem shardSuffixLoop_succ (fuel tempIndex : Nat) (stringIndex : String)
    (h : tempIndex < fuel) :
    shardSuffixLoop fuel tempIndex stringIndex =
      if tempIndex / 26 ≠ 0 then
        shardSuffixLoop (tempIndex / 26 + 1) (tempIndex / 26)
          (String.singleton (Char.ofNat (97 + tempIndex % 26)) ++ stringIndex)
      else String.singleton (Char.ofNat (97 + tempIndex % 26)) ++ stringIndex := by
  cases fuel with
  | zero => omega
  | succ fuel =>
    rw [shardSuffixLoop]
    by_cases h0 : tempIndex / 26 = 0
    · rw [if_neg (not_not.mpr h0), if_neg (not_not.mpr h0)]
    · rw [if_pos h0, if_pos h0]
      apply String.ext
      rw [shardSuffixLoop_data _ _ _ (by omega), shardSuffixLoop_data _ _ _ (Nat.lt_succ_self _)]

theorem letter_toNat (d : Nat) (h : d < 26) : (Char.ofNat (97 + d)).toNat = 97 + d := by
  interval_cases d <;> rfl

theorem letter_range (d : Nat) (h : d < 26) :
    'a' ≤ Char.ofNat (97 + d) ∧ Char.ofNat (97 + d) ≤ 'z' := by
  interval_cases d <;> decide

/-- The number written by a list of letters, most significant first. -/
theorem shardSuffix_decode (n : Nat) :
    Nat.ofDigits 26 (((shardSuffix n).data.map (fun c => c.toNat - 97)).reverse) = n := by
  rw [shardSuffix_data]
  by_cases h : n = 0
  · subst h
    simp
  · rw [if_neg h, List.map_map, ← List.map_reverse, List.reverse_reverse]
    have hd : ∀ d ∈ Nat.digits 26 n, ((fun c : Char => c.toNat - 97) ∘
        (fun d => Char.ofNat (97 + d))) d = id d := by
      intro d hd
      have := Nat.digits_lt_base (by decide) hd
      simp only [Function.comp, letter_toNat d this, id]
      omega
    rw [List.map_congr_left hd, List.map_id, Nat.ofDigits_digits]

theorem shardSuffix_injective : Function.Injective shardSuffix := by
  intro m n h
  rw [← shardSuffix_decode m, ← shardSuffix_decode n, h]

theorem shardSuffix_ne_empty (n : Nat) : shardSuffix n ≠ "" := by
  intro h
  have h1 := shardSuffix_data n
  rw [h] at h1
  by_cases hn : n = 0
  · simp [hn] at h1
  · rw [if_neg hn] at h1
    have h2 := congrArg List.length h1
    simp only [List.length_map, List.length_reverse] at h2
    have h3 : Nat.digits 26 n = [] := List.eq_nil_of_length_eq_zero h2.symm
    exact hn (Nat.digits_eq_nil_iff_eq_zero.mp h3)

theorem shardSuffix_letters (n : Nat) (c : Char) (h : c ∈ (shardSuffix n).data) :
    'a' ≤ c ∧ c ≤ 'z' := by
  rw [shardSuffix_data] at h
  by_cases hn : n = 0
  · simp [hn] at h
    subst h
    decide
  · rw [if_neg hn] at h
    simp only [List.mem_map, List.mem_reverse] at h
    obtain ⟨d, hd, rfl⟩ := h
    exact letter_range d (Nat.digits_lt_base (by decide) hd)

/-- C3 (as amended): the letter suffix for shard index `n` is the ordinary base-26 numeral of
`n`, most significant digit first, with the letters `a`..`z` standing for the digits 0..25
(index 0 gives `a`); the suffixes for the indices 0..27 are `a`, ..., `z`, `ba`, `bb`. -/
theorem shardSuffix_base26 :
    (∀ n, shardSuffix n =
      String.mk (if n = 0 then ['a']
        else (Nat.digits 26 n).reverse.map (fun d => Char.ofNat (97 + d)))) ∧
    (List.range 28).map shardSuffix =
      ["a", "b", "c", "d", "e", "f", "g", "h", "i", "j", "k", "l", "m", "n", "o", "p", "q", "r",
        "s", "t", "u", "v", "w", "x", "y", "z", "ba", "bb"] := by
  refine ⟨fun n => String.ext ?_, by decide⟩
  rw [shardSuffix_data]

set_option maxRecDepth 100000 in
/-- C3 as stated fails: the suffix for index 26 is `ba`, not `aa`, and the suffix for index 27
is `bb`, not `ab`; a caller that takes and releases 28 tasks of a sharded lane sees the task
ids `1a`, ..., `1z`, `1ba`, `1bb`. -/
theorem shardSuffix_bijective_counterexample :
    shardSuffix 26 = "ba" ∧ shardSuffix 26 ≠ "aa" ∧ shardSuffix 27 = "bb" ∧
      shardSuffix 27 ≠ "ab" ∧
      taskIds ((Driver.start longShardedScheduler).run (releaseEach 28)).log =
        ["1a", "1b", "1c", "1d", "1e", "1f", "1g", "1h", "1i", "1j", "1k", "1l", "1m", "1n",
          "1o", "1p", "1q", "1r", "1s", "1t", "1u", "1v", "1w", "1x", "1y", "1z", "1ba",
          "1bb"] := by
  refine ⟨by decide, by decide, by decide, by decide, ?_⟩
  rfl

/-- C4: the shard suffix is injective in the shard index, and for every index it is a non-empty
string of lowercase letters. -/
theorem shardSuffix_injective_nonempty_lowercase :
    Function.Injective shardSuffix ∧
      ∀ n, shardSuffix n ≠ "" ∧ ∀ c ∈ (shardSuffix n).data, 'a' ≤ c ∧ c ≤ 'z' :=
  ⟨shardSuffix_injective, fun n => ⟨shardSuffix_ne_empty n, shardSuffix_letters n⟩⟩

/-- C7: `nextTask` returns `null` exactly when no queue passes the guard
`numRunningInstances < maxInstance && specsIndex < specLists.length`; otherwise the queue it
dispatches from (the one whose counters it advances and whose position the task records) is the
first one passing the guard in the scan order `rotationIndex, rotationIndex + 1, ...` taken
modulo the number of queues. -/
theorem nextTask_null_iff_and_first_eligible (s : TaskScheduler) :
    ((nextTask s).1 = .null ↔ ∀ q ∈ s.taskQueues, ¬ q.eligible) ∧
      ((∃ q ∈ s.taskQueues, q.eligible) →
        ∃ j q result, j < s.taskQueues.length ∧
          s.taskQueues[(j + s.rotationIndex) % s.taskQueues.length]? = some q ∧ q.eligible ∧
          (∀ k, k < j → ∀ q1,
            s.taskQueues[(k + s.rotationIndex) % s.taskQueues.length]? = some q1 →
              ¬ q1.eligible) ∧
          (nextTask s).1.result? = some result ∧
          result.queue = (j + s.rotationIndex) % s.taskQueues.length ∧
          (nextTask s).2.taskQueues =
            s.taskQueues.set ((j + s.rotationIndex) % s.taskQueues.length) q.claimed) := by
  rcases nextTask_cases s with ⟨j, q, h, hj, h3, h4, h5⟩ | ⟨h1, h2⟩
  · obtain ⟨r, hr1, hr2, _, _⟩ := dispatch_result s (rotatedIndex s j) q h.2
    refine ⟨⟨?_, ?_⟩, ?_⟩
    · intro hnull
      rw [h5] at hnull
      exact absurd hnull (dispatch_fst_ne_null _ _ _ _)
    · intro hall
      exact absurd h (hall q (List.getElem?_mem h3))
    · intro _
      refine ⟨j, q, r, hj, h3, h, h4, ?_, hr2, ?_⟩
      · rw [h5]
        exact hr1
      · rw [h5, dispatch_snd]
        rfl
  · refine ⟨⟨fun _ => h1, fun _ => by rw [h2]⟩, ?_⟩
    rintro ⟨q, hq, he⟩
    exact absurd he (h1 q hq)

/-- Witness of C7 on the sharded example scheduler, whose only queue passes the guard. -/
theorem nextTask_null_iff_and_first_eligible_witness :
    ∃ j q result, j < shardedScheduler.taskQueues.length ∧
      shardedScheduler.taskQueues[(j + shardedScheduler.rotationIndex) %
        shardedScheduler.taskQueues.length]? = some q ∧ q.eligible ∧
      (∀ k, k < j → ∀ q1,
        shardedScheduler.taskQueues[(k + shardedScheduler.rotationIndex) %
          shardedScheduler.taskQueues.length]? = some q1 → ¬ q1.eligible) ∧
      (nextTask shardedScheduler).1.result? = some result ∧
      result.queue =
        (j + shardedScheduler.rotationIndex) % shardedScheduler.taskQueues.length ∧
      (nextTask shardedScheduler).2.taskQueues =
        shardedScheduler.taskQueues.set
          ((j + shardedScheduler.rotationIndex) % shardedScheduler.taskQueues.length)
          q.claimed :=
  (nextTask_null_iff_and_first_eligible shardedScheduler).2
    ⟨TaskQueue.new
        { plainCapabilities with maxInstances := some 2, shardTestFiles := true, count := some 1 }
        [["s1"], ["s2"], ["s3"]],
      by decide, by decide⟩

/-- The `taskId` of every task returned by `nextTask`: the number that is the 1-based position
of the serving queue in `taskQueues` when the queue has exactly one spec list, and the string
made of the decimal rendering of that number and the letter suffix for the queue's `specsIndex`
before the dispatch when it has more. -/
theorem taskId_of_returned_task (s s1 : TaskScheduler) (t : Task)
    (h : nextTask s = (.task t, s1)) :
    ∃ q, s.taskQueues[t.queue]? = some q ∧ q.eligible ∧
      s1.taskQueues = s.taskQueues.set t.queue q.claimed ∧
      (1 < q.specLists.length ∨ q.specLists.length = 1) ∧
      (1 < q.specLists.length →
        t.taskId = .str (toString (t.queue + 1) ++ shardSuffix q.specsIndex)) ∧
      (q.specLists.length = 1 → t.taskId = .num (t.queue + 1)) := by
  rcases nextTask_cases s with ⟨j, q, hq, hj, h3, h4, h5⟩ | ⟨h1, h2⟩
  · obtain ⟨r, hr1, hr2, _, hr4⟩ := dispatch_result s (rotatedIndex s j) q hq.2
    have hd : dispatch s (rotatedIndex s j) q hq.2 = (.task t, s1) := by rw [← h5, h]
    have hs1 := dispatch_snd s (rotatedIndex s j) q hq.2
    rw [hd] at hr1 hs1
    simp only [NextResult.result?, Option.some.injEq] at hr1
    subst hr1
    simp only at hs1
    rw [hr2]
    refine ⟨q, h3, hq, by rw [hs1], ?_, ?_, ?_⟩
    · have := hq.2
      omega
    · intro hlen
      rw [hr4, taskIdOf, if_pos hlen]
    · intro hlen
      rw [hr4, taskIdOf, if_neg (by omega)]
  · rw [h2] at h
    simp at h

/-- C8 fails on the code: for `multiCapabilities: [{}]` over one spec file the task returned by
`nextTask` carries as `taskId` the number 1, not the string `1` that the claim and the JSDoc of
`nextTask` (`taskId: string`) describe; the `taskId` is a string only when the queue has more
than one spec list, as for the task `1a` of the sharded example scheduler. -/
theorem taskId_number_on_unsharded_lane :
    (nextTask unshardedScheduler).1 =
        .task
          { capabilities := { plainCapabilities with count := some 1 }
            specs := ["s1"], taskId := .num 1, queue := 0 } ∧
      TaskId.num 1 ≠ TaskId.str "1" ∧
      (∀ t, (nextTask unshardedScheduler).1 = .task t → ∀ str, t.taskId ≠ .str str) ∧
      (nextTask shardedScheduler).1 = .task shardedTask1a ∧
      shardedTask1a.taskId = .str "1a" := by
  refine ⟨by decide, by decide, ?_, by decide, rfl⟩
  intro t ht str hstr
  have h0 : (nextTask unshardedScheduler).1 =
      .task
        { capabilities := { plainCapabilities with count := some 1 }
          specs := ["s1"], taskId := .num 1, queue := 0 } := by decide
  rw [h0] at ht
  simp only [NextResult.task.injEq] at ht
  rw [← ht] at hstr
  simp at hstr

/-! ## The caller -/

theorem step_nextTask_scheduler (d : Driver) :
    (d.step .nextTask).scheduler = (nextTask d.scheduler).2 := by
  cases hnt : nextTask d.scheduler with
  | mk r s1 => cases r <;> simp [Driver.step, hnt]

theorem step_nextTask_log (d : Driver) :
    (d.step .nextTask).log = d.log ++ [(nextTask d.scheduler).1] := by
  cases hnt : nextTask d.scheduler with
  | mk r s1 => cases r <;> simp [Driver.step, hnt]

theorem step_nextTask_tasks (d : Driver) :
    (d.step .nextTask).tasks =
      match (nextTask d.scheduler).1 with
      | .task t => d.tasks ++ [t]
      | _ => d.tasks := by
  cases hnt : nextTask d.scheduler with
  | mk r s1 => cases r <;> simp [Driver.step, hnt]

theorem step_done_of_none (d : Driver) (i : Nat) (h : d.tasks[i]? = none) :
    d.step (.done i) = d := by
  simp [Driver.step, h]

theorem step_done_of_some (d : Driver) (i : Nat) (t : Task) (h : d.tasks[i]? = some t) :
    d.step (.done i) =
      { d with scheduler := t.done d.scheduler, tasks := d.tasks.eraseIdx i } := by
  simp [Driver.step, h]

theorem run_cons (d : Driver) (c : Call) (calls : List Call) :
    d.run (c :: calls) = (d.step c).run calls := rfl

theorem run_append (d : Driver) (calls1 calls2 : List Call) :
    d.run (calls1 ++ calls2) = (d.run calls1).run calls2 := by
  simp [Driver.run, List.foldl_append]

theorem countP_eraseIdx {α : Type} (p : α → Bool) (l : List α) (i : Nat) (t : α)
    (h : l[i]? = some t) :
    l.countP p = (l.eraseIdx i).countP p + (if p t then 1 else 0) := by
  induction l generalizing i with
  | nil => simp at h
  | cons x xs ih =>
    cases i with
    | zero =>
      simp only [List.getElem?_cons_zero, Option.some.injEq] at h
      subst h
      simp only [List.eraseIdx_cons_zero, List.countP_cons]
    | succ i =>
      simp only [List.getElem?_cons_succ] at h
      simp only [List.eraseIdx_cons_succ, List.countP_cons, ih i h]
      omega

/-- The invariant of the caller and the scheduler: for every queue, the tasks held from it are
counted by `numRunningInstances`, which stays within `max maxInstance 0`. -/
theorem step_invariant (d : Driver) (c : Call)
    (hinv : ∀ i q, d.scheduler.taskQueues[i]? = some q →
      (d.held i : Int) ≤ q.numRunningInstances ∧ q.numRunningInstances ≤ max q.maxInstance 0) :
    ∀ i q, (d.step c).scheduler.taskQueues[i]? = some q →
      ((d.step c).held i : Int) ≤ q.numRunningInstances ∧
        q.numRunningInstances ≤ max q.maxInstance 0 := by
  intro i q hq
  cases c with
  | nextTask =>
    rw [step_nextTask_scheduler] at hq
    have htasks := step_nextTask_tasks d
    rcases nextTask_cases d.scheduler with ⟨j, q0, he, hj, h3, _, h5⟩ | ⟨_, h2⟩
    · obtain ⟨r, hr1, hr2, _, _⟩ := dispatch_result d.scheduler (rotatedIndex d.scheduler j) q0 he.2
      rw [h5, dispatch_snd] at hq
      rw [h5] at htasks
      simp only at hq
      have hheld : (d.step .nextTask).held i ≤
          d.held i + (if rotatedIndex d.scheduler j = i then 1 else 0) := by
        unfold Driver.held
        rw [htasks]
        cases hres : (dispatch d.scheduler (rotatedIndex d.scheduler j) q0 he.2).1 with
        | null => simp
        | typeError t => simp
        | task t =>
          rw [hres] at hr1
          simp only [NextResult.result?, Option.some.injEq] at hr1
          subst hr1
          simp only [List.countP_append, List.countP_cons, List.countP_nil, hr2]
          split <;> simp_all
      by_cases hi : rotatedIndex d.scheduler j = i
      · subst hi
        rw [List.getElem?_set_self (rotatedIndex_lt d.scheduler j (by omega))] at hq
        simp only [Option.some.injEq] at hq
        subst hq
        have := hinv _ q0 h3
        have he1 := he.1
        simp only [if_true] at hheld
        simp only [TaskQueue.claimed]
        omega
      · rw [List.getElem?_set_ne hi] at hq
        have := hinv _ q hq
        simp only [if_neg hi] at hheld
        omega
    · rw [h2] at hq htasks
      simp only at htasks
      have := hinv i q hq
      unfold Driver.held at this ⊢
      rw [htasks]
      exact this
  | done k =>
    cases ht : d.tasks[k]? with
    | none =>
      rw [step_done_of_none d k ht] at hq ⊢
      exact hinv i q hq
    | some t =>
      rw [step_done_of_some d k t ht] at hq ⊢
      simp only at hq
      have hc := countP_eraseIdx (fun t => decide (t.queue = i)) d.tasks k t ht
      simp only [Driver.held]
      unfold Task.done at hq
      cases hqt : d.scheduler.taskQueues[t.queue]? with
      | none =>
        rw [hqt] at hq
        simp only at hq
        have := hinv i q hq
        simp only [Driver.held] at this
        omega
      | some qt =>
        rw [hqt] at hq
        simp only at hq
        by_cases hi : t.queue = i
        · subst hi
          have hlt : t.queue < d.scheduler.taskQueues.length := by
            rcases Nat.lt_or_ge t.queue d.scheduler.taskQueues.length with h1 | h1
            · exact h1
            · rw [List.getElem?_eq_none h1] at hqt
              simp at hqt
          rw [List.getElem?_set_self hlt] at hq
          simp only [Option.some.injEq] at hq
          subst hq
          have := hinv _ qt hqt
          simp only [Driver.held] at this
          simp only [decide_True, if_true] at hc
          simp only
          omega
        · rw [List.getElem?_set_ne hi] at hq
          have := hinv i q hq
          simp only [Driver.held] at this
          simp only [hi, decide_False] at hc
          omega

theorem run_invariant (calls : List Call) (d : Driver)
    (hinv : ∀ i q, d.scheduler.taskQueues[i]? = some q →
      (d.held i : Int) ≤ q.numRunningInstances ∧ q.numRunningInstances ≤ max q.maxInstance 0) :
    ∀ i q, (d.run calls).scheduler.taskQueues[i]? = some q →
      ((d.run calls).held i : Int) ≤ q.numRunningInstances ∧
        q.numRunningInstances ≤ max q.maxInstance 0 := by
  induction calls generalizing d with
  | nil => exact hinv
  | cons c calls ih =>
    rw [run_cons]
    exact ih (d.step c) (step_invariant d c hinv)

/-! ## The constructor -/

theorem mem_foldl_append {α β : Type} (f : α → List β) (l : List α) (init : List β) (x : β)
    (h : x ∈ l.foldl (fun acc a => acc ++ f a) init) : x ∈ init ∨ ∃ a ∈ l, x ∈ f a := by
  induction l generalizing init with
  | nil => exact Or.inl h
  | cons a as ih =>
    rcases ih (init ++ f a) h with h1 | ⟨b, hb, hx⟩
    · rcases List.mem_append.mp h1 with h2 | h2
      · exact Or.inl h2
      · exact Or.inr ⟨a, List.mem_cons_self _ _, h2⟩
    · exact Or.inr ⟨b, List.mem_cons_of_mem _ hb, hx⟩

theorem new_queue (cp : ConfigParser) (config : Config) (q : TaskQueue)
    (h : q ∈ (TaskScheduler.new cp config).taskQueues) :
    ∃ c ∈ config.multiCapabilities, q = TaskQueue.new (setCount c) (specLists cp config c) := by
  rcases mem_foldl_append (queuesFor cp config) config.multiCapabilities [] q h with h1 | h1
  · simp at h1
  · obtain ⟨c, hc, hq⟩ := h1
    exact ⟨c, hc, (List.mem_replicate.mp hq).2⟩

theorem start_invariant (cp : ConfigParser) (config : Config) (i : Nat) (q : TaskQueue)
    (h : (Driver.start (TaskScheduler.new cp config)).scheduler.taskQueues[i]? = some q) :
    ((Driver.start (TaskScheduler.new cp config)).held i : Int) ≤ q.numRunningInstances ∧
      q.numRunningInstances ≤ max q.maxInstance 0 := by
  obtain ⟨c, _, hq⟩ := new_queue cp config q (List.getElem?_mem h)
  subst hq
  simp [Driver.start, Driver.held, TaskQueue.new]

/-- C5: in every state reached from a freshly constructed scheduler by `nextTask` calls and
releases of tasks the caller holds (so each task is released at most once), every queue (its
cap `maxInstance` being at least 1) has `0 <= numRunningInstances <= maxInstance`, and the
caller never holds more than `maxInstance` tasks dispatched from it. -/
theorem numRunningInstances_within_cap (cp : ConfigParser) (config : Config)
    (calls : List Call) (i : Nat) (q : TaskQueue)
    (h : ((Driver.start (TaskScheduler.new cp config)).run calls).scheduler.taskQueues[i]? =
      some q)
    (hcap : 1 ≤ q.maxInstance) :
    0 ≤ q.numRunningInstances ∧ q.numRunningInstances ≤ q.maxInstance ∧
      (((Driver.start (TaskScheduler.new cp config)).run calls).held i : Int) ≤
        q.maxInstance := by
  have := run_invariant calls (Driver.start (TaskScheduler.new cp config))
    (start_invariant cp config) i q h
  rw [max_eq_left (by omega)] at this
  omega

/-- Witness of C5: the queue of the sharded example scheduler (cap 2, three spec files) after
two tasks have been taken, one of them released and a third one taken: two tasks are running
and held. -/
theorem numRunningInstances_within_cap_witness :
    ((Driver.start shardedScheduler).run
        [.nextTask, .nextTask, .done 0, .nextTask]).scheduler.taskQueues.map
        (fun q => (q.numRunningInstances, q.maxInstance)) = [(2, 2)] ∧
      ((0 : Int) ≤ 2 ∧ (2 : Int) ≤ 2 ∧
        (((Driver.start shardedScheduler).run
          [.nextTask, .nextTask, .done 0, .nextTask]).held 0 : Int) ≤ 2) :=
  ⟨by decide,
    numRunningInstances_within_cap exampleParser
      (exampleConfig ["s1", "s2", "s3"]
        [{ plainCapabilities with maxInstances := some 2, shardTestFiles := true }])
      [.nextTask, .nextTask, .done 0, .nextTask] 0
      { capabilities :=
          { plainCapabilities with
            maxInstances := some 2, shardTestFiles := true, count := some 1 }
        numRunningInstances := 2
        maxInstance := 2
        specsIndex := 3
        specLists := [["s1"], ["s2"], ["s3"]] }
      (by decide) (by decide)⟩

/-! ## Round robin -/

theorem mod_add_surj (N c m : Nat) (h : m < N) : ∃ k, k < N ∧ (k + c) % N = m := by
  have hpos : 0 < N := by omega
  have hr : c % N < N := Nat.mod_lt _ hpos
  refine ⟨(m + N - c % N) % N, Nat.mod_lt _ hpos, ?_⟩
  rw [Nat.mod_add_mod, ← Nat.add_mod_mod]
  have e : m + N - c % N + c % N = m + N := by omega
  rw [e, Nat.add_mod_right, Nat.mod_eq_of_lt h]

theorem mod_add_inj (N c j1 j2 : Nat) (h1 : j1 < N) (h2 : j2 < N)
    (h : (j1 + c) % N = (j2 + c) % N) : j1 = j2 := by
  have h3 : j1 ≡ j2 [MOD N] := Nat.ModEq.add_right_cancel' c h
  exact Nat.ModEq.eq_of_lt_of_lt h3 h1 h2

theorem nextTask_of_eligible_head (s : TaskScheduler) (q : TaskQueue)
    (hq : s.taskQueues[rotatedIndex s 0]? = some q) (he : q.eligible) :
    nextTask s = dispatch s (rotatedIndex s 0) q he.2 := by
  rcases nextTask_cases s with ⟨j, q0, h, _, h3, h4, h5⟩ | ⟨h1, _⟩
  · cases j with
    | zero =>
      rw [hq] at h3
      simp only [Option.some.injEq] at h3
      subst h3
      exact h5
    | succ j => exact absurd he (h4 0 (Nat.succ_pos j) q hq)
  · exact absurd he (h1 q (List.getElem?_mem hq))

/-- One round of `releaseEach`: the call dispatches from the queue at the head of the scan and
the task, if one is returned, is released. -/
theorem releaseEach_round (B : Prop) (N rot0 k : Nat) (d : Driver) (hk : k < N)
    (htasks : d.tasks = []) (hlen : d.scheduler.taskQueues.length = N)
    (hrot : d.scheduler.rotationIndex % N = (k + rot0) % N)
    (hfresh : ∀ j, k ≤ j → j < N → ∃ q, d.scheduler.taskQueues[(j + rot0) % N]? = some q ∧
      q.eligible ∧ (B → q.capabilities.buildable)) :
    ((d.step .nextTask).step (.done 0)).tasks = [] ∧
      ((d.step .nextTask).step (.done 0)).scheduler.taskQueues.length = N ∧
      ((d.step .nextTask).step (.done 0)).scheduler.rotationIndex % N = (k + 1 + rot0) % N ∧
      (∀ j, k + 1 ≤ j → j < N →
        ∃ q, ((d.step .nextTask).step (.done 0)).scheduler.taskQueues[(j + rot0) % N]? = some q ∧
          q.eligible ∧ (B → q.capabilities.buildable)) ∧
      ∃ r t, ((d.step .nextTask).step (.done 0)).log = d.log ++ [r] ∧ r.result? = some t ∧
        t.queue = (k + rot0) % N ∧ (B → r = .task t) := by
  obtain ⟨q, hq, he, hb⟩ := hfresh k (le_refl k) hk
  have hhead : rotatedIndex d.scheduler 0 = (k + rot0) % N := by
    unfold rotatedIndex
    rw [hlen, Nat.zero_add, hrot]
  have hnt := nextTask_of_eligible_head d.scheduler q (by rw [hhead]; exact hq) he
  rw [hhead] at hnt
  obtain ⟨t, ht1, ht2, _, _⟩ := dispatch_result d.scheduler ((k + rot0) % N) q he.2
  have hsnd := dispatch_snd d.scheduler ((k + rot0) % N) q he.2
  have hsched := step_nextTask_scheduler d
  have hlog := step_nextTask_log d
  have htk := step_nextTask_tasks d
  rw [hnt] at hsched hlog htk
  rw [hsnd] at hsched
  have hidx : (k + rot0) % N < d.scheduler.taskQueues.length := by
    rw [hlen]
    exact Nat.mod_lt _ (by omega)
  have hne : ∀ j, k + 1 ≤ j → j < N → (k + rot0) % N ≠ (j + rot0) % N := by
    intro j hj1 hj2 heq
    have := mod_add_inj N rot0 k j hk hj2 heq
    omega
  have hrot1 : ((k + rot0) % N + 1) % N = (k + 1 + rot0) % N := by
    rw [Nat.mod_add_mod]
    congr 1
    omega
  cases hres : (dispatch d.scheduler ((k + rot0) % N) q he.2).1 with
  | null => exact absurd hres (dispatch_fst_ne_null _ _ _ _)
  | typeError t1 =>
    rw [hres] at htk hlog ht1
    simp only at htk
    have hnone : (d.step .nextTask).tasks[0]? = none := by rw [htk, htasks]; rfl
    rw [step_done_of_none _ 0 hnone, htk, hsched]
    refine ⟨htasks, by simp [hlen], hrot1, ?_, .typeError t1, t, hlog, ht1, ht2, ?_⟩
    · intro j hj1 hj2
      obtain ⟨q1, hq1, he1, hb1⟩ := hfresh j (by omega) hj2
      refine ⟨q1, ?_, he1, hb1⟩
      simp only
      rw [List.getElem?_set_ne (hne j hj1 hj2), hq1]
    · intro hB
      have := dispatch_fst_of_buildable d.scheduler ((k + rot0) % N) q he.2 (hb hB)
      rw [hres] at this
      simp at this
  | task t1 =>
    rw [hres] at htk hlog ht1
    simp only [NextResult.result?, Option.some.injEq] at ht1
    subst ht1
    simp only at htk
    have hsome : (d.step .nextTask).tasks[0]? = some t1 := by rw [htk, htasks]; rfl
    rw [step_done_of_some _ 0 t1 hsome, htk, hsched, htasks]
    simp only [List.nil_append, List.eraseIdx_cons_zero]
    have hdone : (Task.done t1 { d.scheduler with
          rotationIndex := (k + rot0) % N + 1
          taskQueues := d.scheduler.taskQueues.set ((k + rot0) % N) q.claimed }) =
        { d.scheduler with
          rotationIndex := (k + rot0) % N + 1
          taskQueues := (d.scheduler.taskQueues.set ((k + rot0) % N) q.claimed).set
            ((k + rot0) % N)
            { q.claimed with numRunningInstances := q.claimed.numRunningInstances - 1 } } := by
      unfold Task.done
      rw [ht2]
      simp only
      rw [List.getElem?_set_self hidx]
    rw [hdone]
    refine ⟨trivial, by simp [hlen], hrot1, ?_, .task t1, t1, hlog, rfl, ht2, fun _ => rfl⟩
    intro j hj1 hj2
    obtain ⟨q1, hq1, he1, hb1⟩ := hfresh j (by omega) hj2
    refine ⟨q1, ?_, he1, hb1⟩
    simp only
    rw [List.getElem?_set_ne (hne j hj1 hj2), List.getElem?_set_ne (hne j hj1 hj2), hq1]

theorem servedQueues_append (a b : List NextResult) :
    servedQueues (a ++ b) = servedQueues a ++ servedQueues b := by
  simp [servedQueues, List.filterMap_append]

theorem releaseEach_rounds (B : Prop) (N rot0 n k : Nat) (d : Driver) (hk : k + n = N)
    (htasks : d.tasks = []) (hlen : d.scheduler.taskQueues.length = N)
    (hrot : d.scheduler.rotationIndex % N = (k + rot0) % N)
    (hfresh : ∀ j, k ≤ j → j < N → ∃ q, d.scheduler.taskQueues[(j + rot0) % N]? = some q ∧
      q.eligible ∧ (B → q.capabilities.buildable)) :
    ∃ rs : List NextResult, (d.run (releaseEach n)).log = d.log ++ rs ∧ rs.length = n ∧
      servedQueues rs = (List.range' k n).map (fun j => (j + rot0) % N) ∧
      ∀ r ∈ rs, r ≠ .null ∧ (B → ∃ t, r = .task t) := by
  induction n generalizing k d with
  | zero => exact ⟨[], by simp [releaseEach, Driver.run], rfl, rfl, by simp⟩
  | succ n ih =>
    obtain ⟨h1, h2, h3, h4, r, t, h5, h6, h7, h8⟩ :=
      releaseEach_round B N rot0 k d (by omega) htasks hlen hrot hfresh
    obtain ⟨rs, hrs1, hrs2, hrs3, hrs4⟩ :=
      ih (k + 1) ((d.step .nextTask).step (.done 0)) (by omega) h1 h2 h3 h4
    refine ⟨r :: rs, ?_, by simp [hrs2], ?_, ?_⟩
    · rw [releaseEach, run_cons, run_cons, hrs1, h5]
      simp
    · have e : r :: rs = [r] ++ rs := rfl
      rw [e, servedQueues_append, hrs3]
      simp [servedQueues, h6, h7, List.range']
    · intro r1 hr1
      rcases List.mem_cons.mp hr1 with h9 | h9
      · subst h9
        refine ⟨?_, fun hB => ⟨t, h8 hB⟩⟩
        intro hnull
        rw [hnull] at h6
        simp [NextResult.result?] at h6
      · exact hrs4 r1 h9

theorem rotation_perm (N c : Nat) :
    ((List.range N).map (fun j => (j + c) % N)).Perm (List.range N) := by
  apply (List.perm_ext_iff_of_nodup ?_ (List.nodup_range N)).mpr
  · intro a
    simp only [List.mem_map, List.mem_range]
    constructor
    · rintro ⟨j, hj, rfl⟩
      exact Nat.mod_lt _ (by omega)
    · intro ha
      exact mod_add_surj N c a ha
  · apply List.Nodup.map_on _ (List.nodup_range N)
    intro x hx y hy hxy
    exact mod_add_inj N c x y (List.mem_range.mp hx) (List.mem_range.mp hy) hxy

/-- C6: on a scheduler with `N >= 1` queues, each with `maxInstance` 1, no task in flight and
at least `N` spec lists not yet dispatched, and for every value of the rotation index, `N`
consecutive `nextTask` calls, each returned task being released before the next call, dispatch
from the queues at positions `(k + rotationIndex) mod N` for `k = 0, ..., N - 1`, which are
pairwise distinct: every queue is visited exactly once.  No call returns `null`, and every call
returns a task when no capability builder raises. -/
theorem round_robin_fairness (s : TaskScheduler) (N : Nat) (hN : s.taskQueues.length = N)
    (hpos : 1 ≤ N)
    (hq : ∀ q ∈ s.taskQueues, q.maxInstance = 1 ∧ q.numRunningInstances = 0 ∧
      q.specsIndex + N ≤ q.specLists.length) :
    (((Driver.start s).run (releaseEach N)).log).length = N ∧
      servedQueues ((Driver.start s).run (releaseEach N)).log =
        (List.range N).map (fun k => (k + s.rotationIndex) % N) ∧
      (servedQueues ((Driver.start s).run (releaseEach N)).log).Perm (List.range N) ∧
      (∀ r ∈ ((Driver.start s).run (releaseEach N)).log, r ≠ .null) ∧
      ((∀ q ∈ s.taskQueues, q.capabilities.buildable) →
        ∀ r ∈ ((Driver.start s).run (releaseEach N)).log, ∃ t, r = .task t) := by
  obtain ⟨rs, h1, h2, h3, h4⟩ :=
    releaseEach_rounds (∀ q ∈ s.taskQueues, q.capabilities.buildable) N s.rotationIndex N 0
      (Driver.start s) (by omega) rfl hN (by simp [Driver.start]) (by
        intro j _ hj
        have hidx : (j + s.rotationIndex) % N < s.taskQueues.length := by
          rw [hN]
          exact Nat.mod_lt _ (by omega)
        refine ⟨s.taskQueues[(j + s.rotationIndex) % N], ?_, ?_, ?_⟩
        · exact List.getElem?_eq_getElem hidx
        · obtain ⟨hm, hr, hs⟩ := hq _ (List.getElem_mem hidx)
          constructor
          · rw [hm, hr]
            decide
          · omega
        · intro hB
          exact hB _ (List.getElem_mem hidx))
  have hlog : ((Driver.start s).run (releaseEach N)).log = rs := by
    rw [h1]
    rfl
  rw [hlog, h3, ← List.range_eq_range']
  exact ⟨h2, rfl, rotation_perm N s.rotationIndex, fun r hr => (h4 r hr).1,
    fun hB r hr => (h4 r hr).2 hB⟩

/-- Witness of C6: three sharded lanes over three spec files, starting at rotation index 0:
the three calls are served from the queues 0, 1, 2 and return the tasks `1a`, `2a`, `3a`. -/
theorem round_robin_fairness_witness :
    (servedQueues ((Driver.start threeLaneScheduler).run (releaseEach 3)).log = [0, 1, 2] ∧
        taskIds ((Driver.start threeLaneScheduler).run (releaseEach 3)).log =
          ["1a", "2a", "3a"]) ∧
      ((((Driver.start threeLaneScheduler).run (releaseEach 3)).log).length = 3 ∧
        servedQueues ((Driver.start threeLaneScheduler).run (releaseEach 3)).log =
          (List.range 3).map (fun k => (k + threeLaneScheduler.rotationIndex) % 3) ∧
        (servedQueues ((Driver.start threeLaneScheduler).run (releaseEach 3)).log).Perm
          (List.range 3) ∧
        (∀ r ∈ ((Driver.start threeLaneScheduler).run (releaseEach 3)).log, r ≠ .null) ∧
        ((∀ q ∈ threeLaneScheduler.taskQueues, q.capabilities.buildable) →
          ∀ r ∈ ((Driver.start threeLaneScheduler).run (releaseEach 3)).log,
            ∃ t, r = .task t)) :=
  ⟨by decide, round_robin_fairness threeLaneScheduler 3 (by decide) (by decide) (by decide)⟩

/-! ## Scenarios -/

theorem foldl_append_init {α β : Type} (f : α → List β) (l : List α) (init : List β) :
    l.foldl (fun acc a => acc ++ f a) init = init ++ l.foldl (fun acc a => acc ++ f a) [] := by
  induction l generalizing init with
  | nil => simp
  | cons a as ih =>
    simp only [List.foldl_cons, List.nil_append]
    rw [ih (init ++ f a), ih (f a), List.append_assoc]

theorem new_taskQueues_cons (cp : ConfigParser) (config : Config) (c : Capabilities)
    (rest : List Capabilities) (hc : config.multiCapabilities = c :: rest) :
    (TaskScheduler.new cp config).taskQueues =
      queuesFor cp config c ++
        rest.foldl (fun taskQueues capabilities => taskQueues ++ queuesFor cp config capabilities)
          [] := by
  simp only [TaskScheduler.new, hc, List.foldl_cons, List.nil_append]
  exact foldl_append_init (queuesFor cp config) rest (queuesFor cp config c)

theorem toString_one : toString (0 + 1) = "1" := by decide

/-- C9 (as amended): for a configuration whose first capability entry has count 2,
maxInstances 1 and no sharding, with any list `specs` of resolved specs (5 of them in the
scenario), and on which line 129 does not raise, two consecutive `nextTask` calls without a
release both return a task, both tasks carry all of `specs`, the first task has as `taskId` the
number 1 and the second the number 2: each replica is a queue of its own and `taskId` is the
position of the queue. -/
theorem replicas_have_own_taskId (cp : ConfigParser) (config : Config) (c : Capabilities)
    (rest : List Capabilities) (specs : List String)
    (hc : config.multiCapabilities = c :: rest) (hcount : c.count = some 2)
    (hmax : c.maxInstances = some 1) (hshard : c.shardTestFiles = false)
    (hspecs : capabilitiesSpecs cp config c = specs) (hb : c.buildable) :
    ((Driver.start (TaskScheduler.new cp config)).run [.nextTask, .nextTask]).log =
      [.task
          { capabilities := builtCapability (setCount c) (.num 1)
            specs := specs, taskId := .num 1, queue := 0 },
        .task
          { capabilities := builtCapability (setCount c) (.num 2)
            specs := specs, taskId := .num 2, queue := 1 }] := by
  have hqs := new_taskQueues_cons cp config c rest hc
  have hq : queuesFor cp config c =
      [TaskQueue.new (setCount c) [specs], TaskQueue.new (setCount c) [specs]] := by
    simp [queuesFor, specLists, hcount, hshard, hspecs, jsOr, List.replicate]
  rw [hq] at hqs
  generalize hs0 : TaskScheduler.new cp config = s0 at hqs
  generalize hrest : rest.foldl
    (fun taskQueues capabilities => taskQueues ++ queuesFor cp config capabilities) [] = tail
    at hqs
  have hrot0 : s0.rotationIndex = 0 := by rw [← hs0]; rfl
  have hel : (TaskQueue.new (setCount c) [specs]).eligible := by
    simp [TaskQueue.eligible, TaskQueue.new, setCount, hmax, jsOr]
  have hbq : (TaskQueue.new (setCount c) [specs]).capabilities.buildable := hb
  -- first call
  have hhead0 : rotatedIndex s0 0 = 0 := by
    simp [rotatedIndex, hrot0]
  have hnt0 := nextTask_of_eligible_head s0 (TaskQueue.new (setCount c) [specs])
    (by rw [hhead0, hqs]; rfl) hel
  have hfst0 := dispatch_fst_of_buildable s0 0 (TaskQueue.new (setCount c) [specs]) hel.2 hbq
  have hsnd0 := dispatch_snd s0 0 (TaskQueue.new (setCount c) [specs]) hel.2
  rw [hhead0] at hnt0
  -- second call
  generalize hs1 : (dispatch s0 0 (TaskQueue.new (setCount c) [specs]) hel.2).2 = s1
    at hsnd0
  have hqs1 : s1.taskQueues =
      (TaskQueue.new (setCount c) [specs]).claimed :: TaskQueue.new (setCount c) [specs] ::
        tail := by
    rw [hsnd0, hqs]
    rfl
  have hhead1 : rotatedIndex s1 0 = 1 := by
    have : s1.rotationIndex = 1 := by rw [hsnd0]
    simp only [rotatedIndex, this, hqs1, List.length_cons]
    exact Nat.mod_eq_of_lt (by omega)
  have hnt1 := nextTask_of_eligible_head s1 (TaskQueue.new (setCount c) [specs])
    (by rw [hhead1, hqs1]; simp) hel
  have hfst1 := dispatch_fst_of_buildable s1 1 (TaskQueue.new (setCount c) [specs]) hel.2 hbq
  rw [hhead1] at hnt1
  have htid0 : taskIdOf 0 (TaskQueue.new (setCount c) [specs]) = .num 1 := by
    simp [taskIdOf, TaskQueue.new]
  have htid1 : taskIdOf 1 (TaskQueue.new (setCount c) [specs]) = .num 2 := by
    simp [taskIdOf, TaskQueue.new]
  have h0 : (nextTask s0).1 =
      .task
        { capabilities := builtCapability (setCount c) (.num 1)
          specs := specs, taskId := .num 1, queue := 0 } := by
    rw [hnt0, hfst0, htid0]
    rfl
  have h0s : (nextTask s0).2 = s1 := by rw [hnt0, hs1]
  have h1 : (nextTask s1).1 =
      .task
        { capabilities := builtCapability (setCount c) (.num 2)
          specs := specs, taskId := .num 2, queue := 1 } := by
    rw [hnt1, hfst1, htid1]
    rfl
  rw [run_cons, run_cons]
  show (((Driver.start s0).step .nextTask).step .nextTask).log = _
  rw [step_nextTask_log, step_nextTask_scheduler, step_nextTask_log]
  simp only [Driver.start, h0, h0s, h1]
  rfl

/-- Witness of C9 (as amended) on `multiCapabilities: [{count: 2, maxInstances: 1}, {}]` over
five spec files. -/
theorem replicas_have_own_taskId_witness :
    ((Driver.start (TaskScheduler.new exampleParser replicaConfig)).run
        [.nextTask, .nextTask]).log =
      [.task
          { capabilities :=
              { plainCapabilities with count := some 2, maxInstances := some 1 }
            specs := ["s1", "s2", "s3", "s4", "s5"], taskId := .num 1, queue := 0 },
        .task
          { capabilities :=
              { plainCapabilities with count := some 2, maxInstances := some 1 }
            specs := ["s1", "s2", "s3", "s4", "s5"], taskId := .num 2, queue := 1 }] :=
  (replicas_have_own_taskId exampleParser replicaConfig
    { plainCapabilities with count := some 2, maxInstances := some 1 } [plainCapabilities]
    ["s1", "s2", "s3", "s4", "s5"] rfl rfl rfl rfl rfl (by decide)).trans (by decide)

/-- C9 as stated fails: for `multiCapabilities: [{count: 2, maxInstances: 1}, {}]` over five
spec files the two calls return tasks, served from the queues 0 and 1, whose task ids are the
numbers 1 and 2, not 1 and 1. -/
theorem replicas_same_taskId_counterexample :
    (returnedTasks ((Driver.start (TaskScheduler.new exampleParser replicaConfig)).run
        [.nextTask, .nextTask]).log).map Task.taskId = [.num 1, .num 2] ∧
      taskIds ((Driver.start (TaskScheduler.new exampleParser replicaConfig)).run
        [.nextTask, .nextTask]).log = ["1", "2"] ∧
      taskIds ((Driver.start (TaskScheduler.new exampleParser replicaConfig)).run
        [.nextTask, .nextTask]).log ≠ ["1", "1"] ∧
      servedQueues ((Driver.start (TaskScheduler.new exampleParser replicaConfig)).run
        [.nextTask, .nextTask]).log = [0, 1] ∧
      (returnedTasks ((Driver.start (TaskScheduler.new exampleParser replicaConfig)).run
        [.nextTask, .nextTask]).log).map Task.specs =
        [["s1", "s2", "s3", "s4", "s5"], ["s1", "s2", "s3", "s4", "s5"]] := by
  decide

theorem nextTask_single_of_eligible (s : TaskScheduler) (q : TaskQueue)
    (hs : s.taskQueues = [q]) (h1 : q.numRunningInstances < q.maxInstance)
    (h2 : q.specsIndex < q.specLists.length) (hb : q.capabilities.buildable) :
    nextTask s =
      (.task
          { capabilities := builtCapability q.capabilities (taskIdOf 0 q)
            specs := q.specLists[q.specsIndex]
            taskId := taskIdOf 0 q
            queue := 0 },
        { s with rotationIndex := 1, taskQueues := [q.claimed] }) := by
  have hhead : rotatedIndex s 0 = 0 := by
    simp [rotatedIndex, hs, Nat.mod_one]
  have hnt := nextTask_of_eligible_head s q (by rw [hhead, hs]; rfl) ⟨h1, h2⟩
  rw [hhead] at hnt
  have h3 := dispatch_fst_of_buildable s 0 q h2 hb
  have h4 := dispatch_snd s 0 q h2
  rw [hs] at h4
  rw [hnt]
  exact Prod.ext h3 h4

theorem nextTask_single_of_not_eligible (s : TaskScheduler) (q : TaskQueue)
    (hs : s.taskQueues = [q]) (he : ¬ q.eligible) : nextTask s = (.null, s) := by
  rcases nextTask_cases s with ⟨j, q0, h, _, h3, _, _⟩ | ⟨_, h2⟩
  · have hmem := List.getElem?_mem h3
    rw [hs, List.mem_singleton] at hmem
    subst hmem
    exact absurd h he
  · exact h2

/-- The first `m` calls on a single sharded lane, none of them followed by a release. -/
theorem sharded_lane_prefix (q0 : TaskQueue) (files : List String) (k : Nat)
    (hlists : q0.specLists = files.map (fun spec => [spec])) (hmax : q0.maxInstance = (k : Int))
    (hn : k < files.length) (hk : 1 ≤ k) (hb : q0.capabilities.buildable)
    (s0 : TaskScheduler) (m : Nat) (hm : m ≤ k)
    (hs0 : s0.taskQueues = [{ q0 with numRunningInstances := 0, specsIndex := 0 }]) :
    ((Driver.start s0).run (List.replicate m .nextTask)).scheduler.taskQueues =
        [{ q0 with numRunningInstances := (m : Int), specsIndex := m }] ∧
      ((Driver.start s0).run (List.replicate m .nextTask)).tasks =
        (List.range m).map (shardTask q0.capabilities files) ∧
      ((Driver.start s0).run (List.replicate m .nextTask)).log =
        (List.range m).map (fun i => .task (shardTask q0.capabilities files i)) := by
  induction m with
  | zero => exact ⟨hs0, rfl, rfl⟩
  | succ m ih =>
    obtain ⟨ih1, ih2, ih3⟩ := ih (by omega)
    rw [List.replicate_succ', run_append]
    generalize (Driver.start s0).run (List.replicate m .nextTask) = d at ih1 ih2 ih3
    show (d.step .nextTask).scheduler.taskQueues = _ ∧ (d.step .nextTask).tasks = _ ∧
      (d.step .nextTask).log = _
    have he : ({ q0 with numRunningInstances := (m : Int), specsIndex := m } :
        TaskQueue).eligible := by
      simp only [TaskQueue.eligible, hmax, hlists, List.length_map]
      omega
    have hidx : m < ({ q0 with numRunningInstances := (m : Int), specsIndex := m } :
        TaskQueue).specLists.length := he.2
    have hnt := nextTask_single_of_eligible d.scheduler _ ih1 he.1 hidx hb
    have htid : taskIdOf 0 { q0 with numRunningInstances := (m : Int), specsIndex := m } =
        .str ("1" ++ shardSuffix m) := by
      have : 1 < files.length := by omega
      simp [taskIdOf, hlists, this, toString_one]
    have hspec : ({ q0 with numRunningInstances := (m : Int), specsIndex := m } :
        TaskQueue).specLists[m] = files[m]?.toList := by
      have h1 : m < files.length := by omega
      simp [hlists, List.getElem?_eq_getElem h1]
    rw [step_nextTask_scheduler, step_nextTask_tasks, step_nextTask_log, hnt]
    simp only [htid, hspec, ih2, ih3, List.range_succ, List.map_append, List.map_cons,
      List.map_nil]
    refine ⟨?_, rfl, rfl⟩
    simp only [TaskQueue.claimed]
    push_cast
    rfl

/-- The whole scenario on a single sharded lane: `k` calls, a call that finds the lane at its
cap, the release of the task at position `j`, and one more call. -/
theorem sharded_lane_run (q0 : TaskQueue) (files : List String) (k j : Nat)
    (hlists : q0.specLists = files.map (fun spec => [spec])) (hmax : q0.maxInstance = (k : Int))
    (hn : k < files.length) (hk : 1 ≤ k) (hb : q0.capabilities.buildable) (hj : j < k)
    (s0 : TaskScheduler)
    (hs0 : s0.taskQueues = [{ q0 with numRunningInstances := 0, specsIndex := 0 }]) :
    ((Driver.start s0).run
        (List.replicate k .nextTask ++ [.nextTask, .done j, .nextTask])).log =
      (List.range k).map (fun m => .task (shardTask q0.capabilities files m)) ++
        [.null, .task (shardTask q0.capabilities files k)] := by
  obtain ⟨h1, h2, h3⟩ :=
    sharded_lane_prefix q0 files k hlists hmax hn hk hb s0 k (le_refl k) hs0
  rw [run_append]
  generalize (Driver.start s0).run (List.replicate k .nextTask) = d at h1 h2 h3
  show (((d.step .nextTask).step (.done j)).step .nextTask).log = _
  -- the call at the cap
  have hne : ¬ ({ q0 with numRunningInstances := (k : Int), specsIndex := k } :
      TaskQueue).eligible := by
    simp only [TaskQueue.eligible, hmax]
    omega
  have hnull := nextTask_single_of_not_eligible d.scheduler _ h1 hne
  have hd1s : (d.step .nextTask).scheduler = d.scheduler := by
    rw [step_nextTask_scheduler, hnull]
  have hd1t : (d.step .nextTask).tasks = d.tasks := by
    rw [step_nextTask_tasks, hnull]
  have hd1l : (d.step .nextTask).log = d.log ++ [.null] := by
    rw [step_nextTask_log, hnull]
  -- the release
  have htj : (d.step .nextTask).tasks[j]? = some (shardTask q0.capabilities files j) := by
    rw [hd1t, h2, List.getElem?_map, List.getElem?_range hj]
    rfl
  have hd2 := step_done_of_some (d.step .nextTask) j _ htj
  have hdone : (shardTask q0.capabilities files j).done (d.step .nextTask).scheduler =
      { d.scheduler with
        taskQueues := [{ q0 with numRunningInstances := (k : Int) - 1, specsIndex := k }] } := by
    rw [hd1s]
    unfold Task.done
    rw [h1]
    rfl
  rw [hdone] at hd2
  -- the call after the release
  have hidx : k < ({ q0 with numRunningInstances := (k : Int) - 1, specsIndex := k } :
      TaskQueue).specLists.length := by
    simp only [hlists, List.length_map]
    exact hn
  have hnt := nextTask_single_of_eligible ((d.step .nextTask).step (.done j)).scheduler
    { q0 with numRunningInstances := (k : Int) - 1, specsIndex := k } (by rw [hd2])
    (by simp only [hmax]; omega) hidx hb
  have htid : taskIdOf 0 { q0 with numRunningInstances := (k : Int) - 1, specsIndex := k } =
      .str ("1" ++ shardSuffix k) := by
    have : 1 < files.length := by omega
    simp [taskIdOf, hlists, this, toString_one]
  have hspec : ({ q0 with numRunningInstances := (k : Int) - 1, specsIndex := k } :
      TaskQueue).specLists[k] = files[k]?.toList := by
    simp [hlists, List.getElem?_eq_getElem hn]
  rw [step_nextTask_log, hnt]
  simp only [htid, hspec]
  rw [hd2]
  simp only [hd1l, h3, List.append_assoc, List.singleton_append]
  rfl

/-- The sharded-lane scenario on lanes on which line 129 does not raise: for a scheduler built
from a single sharded capability entry with cap `k >= 1` over `n > k` spec files, with no
releases the first `k` `nextTask` calls return the tasks for the shards `0, ..., k - 1` in
order, each carrying that one spec file and the task id `1` followed by the suffix of the
shard; the next call returns `null`; and after the release of one of the tasks the next call
returns the task for shard `k`. -/
theorem sharded_lane_scenario (cp : ConfigParser) (config : Config) (c : Capabilities)
    (files : List String) (k j : Nat) (hc : config.multiCapabilities = [c])
    (hshard : c.shardTestFiles = true) (hcount : jsOr c.count 1 = 1)
    (hmax : jsOr c.maxInstances 1 = (k : Int)) (hk : 1 ≤ k)
    (hfiles : capabilitiesSpecs cp config c = files) (hn : k < files.length)
    (hb : c.buildable) (hj : j < k) :
    ((Driver.start (TaskScheduler.new cp config)).run
        (List.replicate k .nextTask ++ [.nextTask, .done j, .nextTask])).log =
      (List.range k).map (fun m => .task (shardTask (setCount c) files m)) ++
        [.null, .task (shardTask (setCount c) files k)] := by
  have hqs : (TaskScheduler.new cp config).taskQueues =
      [TaskQueue.new (setCount c) (files.map (fun spec => [spec]))] := by
    rw [new_taskQueues_cons cp config c [] hc]
    simp [queuesFor, specLists, hcount, hshard, hfiles, List.replicate]
  exact sharded_lane_run (TaskQueue.new (setCount c) (files.map (fun spec => [spec]))) files k j
    rfl hmax hn hk hb hj (TaskScheduler.new cp config) hqs

/-- C10 fails on the code.  For `multiCapabilities: [{maxInstances: 2, shardTestFiles: true}]`
over `s1`, `s2`, `s3` the calls go as the claim says: the tasks `1a` and `1b`, then `null`, and
after a release the task `1c`, each with its one spec file.  With `browserName: 'chrome'` added
to the same entry (and no `cxstudioOptions`) the first two calls raise the `TypeError` of line
129 instead of returning the tasks for the shards 0 and 1, the lane is then at its cap with no
task to release, and the third spec file is never dispatched. -/
theorem sharded_lane_raises_for_chrome :
    ((Driver.start shardedScheduler).run
          [.nextTask, .nextTask, .nextTask, .done 0, .nextTask]).log =
        [.task
            { capabilities :=
                { plainCapabilities with
                  maxInstances := some 2, shardTestFiles := true, count := some 1 }
              specs := ["s1"], taskId := .str "1a", queue := 0 },
          .task
            { capabilities :=
                { plainCapabilities with
                  maxInstances := some 2, shardTestFiles := true, count := some 1 }
              specs := ["s2"], taskId := .str "1b", queue := 0 },
          .null,
          .task
            { capabilities :=
                { plainCapabilities with
                  maxInstances := some 2, shardTestFiles := true, count := some 1 }
              specs := ["s3"], taskId := .str "1c", queue := 0 }] ∧
      ((Driver.start chromeShardedScheduler).run
          [.nextTask, .nextTask, .nextTask, .done 0, .nextTask]).log =
        [.typeError
            { capabilities :=
                { plainCapabilities with
                  browserName := some "chrome", maxInstances := some 2
                  shardTestFiles := true, count := some 1 }
              specs := ["s1"], taskId := .str "1a", queue := 0 },
          .typeError
            { capabilities :=
                { plainCapabilities with
                  browserName := some "chrome", maxInstances := some 2
                  shardTestFiles := true, count := some 1 }
              specs := ["s2"], taskId := .str "1b", queue := 0 },
          .null, .null] ∧
      returnedTasks ((Driver.start chromeShardedScheduler).run
          [.nextTask, .nextTask, .nextTask, .done 0, .nextTask]).log = [] ∧
      ((Driver.start chromeShardedScheduler).run
          [.nextTask, .nextTask, .nextTask, .done 0, .nextTask]).scheduler.taskQueues.map
        (fun q => (q.numRunningInstances, q.maxInstance, q.specsIndex)) = [(2, 2, 2)] := by
  decide

/-! ## The effect of one call -/

/-- On a descriptor that is not buildable the lookup finds an inherited member, or a builder
that raises. -/
theorem lookup_of_not_buildable (c : Capabilities) (taskId : TaskId) (hb : ¬ c.buildable) :
    capabilityBuilders c.browserName = some .inherited ∨
      ∃ build e, capabilityBuilders c.browserName = some (.builder build) ∧
        build c taskId = .error e := by
  unfold Capabilities.buildable at hb
  unfold capabilityBuilders
  by_cases h1 : c.browserName = some "chrome"
  · right
    rw [if_pos h1]
    have hkey : c.browserName ∉ objectPrototypeKeys.map some := by
      rw [h1]
      decide
    have hcx : c.cxstudioOptions = none := by
      by_contra h
      exact hb ⟨hkey, Or.inr h⟩
    exact ⟨_, "TypeError", rfl, by simp [ChromeCapabilityBuilder.build, hcx]⟩
  · rw [if_neg h1]
    by_cases h2 : c.browserName = some "firefox"
    · right
      rw [if_pos h2]
      have hkey : c.browserName ∉ objectPrototypeKeys.map some := by
        rw [h2]
        decide
      have hcx : c.cxstudioOptions = none := by
        by_contra h
        exact hb ⟨hkey, Or.inr h⟩
      exact ⟨_, "TypeError", rfl, by simp [FirefoxCapabilityBuilder.build, hcx]⟩
    · rw [if_neg h2]
      by_cases hkey : c.browserName ∈ objectPrototypeKeys.map some
      · left
        rw [if_pos hkey]
      · exact absurd ⟨hkey, Or.inl ⟨h1, h2⟩⟩ hb

theorem getElem_eq_getD {α : Type} (l : List α) (i : Nat) (h : i < l.length) (x : α) :
    l[i] = (l[i]?).getD x := by
  rw [List.getElem?_eq_getElem h]
  rfl

theorem dispatch_fst_buildable (s : TaskScheduler) (r : Nat) (q : TaskQueue)
    (h : q.specsIndex < q.specLists.length) (hb : q.capabilities.buildable) :
    (dispatch s r q h).1 = .task (expectedTask r q) := by
  rw [dispatch_fst_of_buildable s r q h hb, expectedTask, getElem_eq_getD _ _ h []]

theorem dispatch_fst_not_buildable (s : TaskScheduler) (r : Nat) (q : TaskQueue)
    (h : q.specsIndex < q.specLists.length) (hb : ¬ q.capabilities.buildable) :
    (dispatch s r q h).1 = .typeError (expectedTask r q) := by
  have hid : (if q.specLists.length > 1 then
      TaskId.str ((TaskId.num (r + 1)).asString ++ shardSuffix q.specsIndex)
      else TaskId.num (r + 1)) = taskIdOf r q := rfl
  have h3 : builtCapability q.capabilities (taskIdOf r q) = q.capabilities := by
    rcases lookup_of_not_buildable q.capabilities (taskIdOf r q) hb with h1 | ⟨build, e, h1, h2⟩
    · simp only [builtCapability, h1]
    · simp only [builtCapability, h1, h2]
  rw [expectedTask, h3, ← getElem_eq_getD _ _ h []]
  unfold dispatch
  simp only [hid]
  rcases lookup_of_not_buildable q.capabilities (taskIdOf r q) hb with h1 | ⟨build, e, h1, h2⟩
  · simp only [h1]
  · simp only [h1, h2]

/-- What a `nextTask` call does to the scheduler and its caller. -/
theorem step_nextTask_cases (d : Driver) :
    ((∀ q ∈ d.scheduler.taskQueues, ¬ q.eligible) ∧
        (d.step .nextTask).scheduler = d.scheduler ∧ (d.step .nextTask).tasks = d.tasks ∧
        (d.step .nextTask).log = d.log ++ [.null]) ∨
    ∃ r q, d.scheduler.taskQueues[r]? = some q ∧ q.eligible ∧
      (d.step .nextTask).scheduler =
        { d.scheduler with
          rotationIndex := r + 1
          taskQueues := d.scheduler.taskQueues.set r q.claimed } ∧
      ((q.capabilities.buildable ∧ (d.step .nextTask).tasks = d.tasks ++ [expectedTask r q] ∧
          (d.step .nextTask).log = d.log ++ [.task (expectedTask r q)]) ∨
        (¬ q.capabilities.buildable ∧ (d.step .nextTask).tasks = d.tasks ∧
          (d.step .nextTask).log = d.log ++ [.typeError (expectedTask r q)])) := by
  rw [step_nextTask_scheduler, step_nextTask_tasks, step_nextTask_log]
  rcases nextTask_cases d.scheduler with ⟨j, q, he, _, h3, _, h5⟩ | ⟨h1, h2⟩
  · right
    refine ⟨rotatedIndex d.scheduler j, q, h3, he, ?_, ?_⟩
    · rw [h5, dispatch_snd]
    · by_cases hb : q.capabilities.buildable
      · left
        rw [h5, dispatch_fst_buildable _ _ _ _ hb]
        exact ⟨hb, rfl, rfl⟩
      · right
        rw [h5, dispatch_fst_not_buildable _ _ _ _ hb]
        exact ⟨hb, rfl, rfl⟩
  · left
    rw [h2]
    exact ⟨h1, rfl, rfl, rfl⟩

/-- What a `done` call does to the scheduler and its caller. -/
theorem step_done_cases (d : Driver) (k : Nat) :
    d.step (.done k) = d ∨
    ∃ t, d.tasks[k]? = some t ∧ (d.step (.done k)).tasks = d.tasks.eraseIdx k ∧
      (d.step (.done k)).log = d.log ∧
      (((d.step (.done k)).scheduler = d.scheduler ∧ d.scheduler.taskQueues[t.queue]? = none) ∨
        ∃ q, d.scheduler.taskQueues[t.queue]? = some q ∧
          (d.step (.done k)).scheduler =
            { d.scheduler with taskQueues := d.scheduler.taskQueues.set t.queue q.released }) := by
  cases ht : d.tasks[k]? with
  | none => exact Or.inl (step_done_of_none d k ht)
  | some t =>
    right
    rw [step_done_of_some d k t ht]
    refine ⟨t, rfl, rfl, rfl, ?_⟩
    cases hq : d.scheduler.taskQueues[t.queue]? with
    | none =>
      left
      simp [Task.done, hq]
    | some q =>
      right
      refine ⟨q, rfl, ?_⟩
      simp [Task.done, hq, TaskQueue.released]

/-- Every queue after a call is the queue at the same position before the call, either
unchanged, or claimed by `nextTask` while eligible, or released by `done`. -/
theorem step_queue (d : Driver) (c : Call) (i : Nat) (q1 : TaskQueue)
    (h : (d.step c).scheduler.taskQueues[i]? = some q1) :
    ∃ q, d.scheduler.taskQueues[i]? = some q ∧
      (q1 = q ∨ (q.eligible ∧ q1 = q.claimed) ∨ q1 = q.released) := by
  cases c with
  | nextTask =>
    rcases step_nextTask_cases d with ⟨_, h1, _, _⟩ | ⟨r, q, hq, he, h1, _⟩
    · rw [h1] at h
      exact ⟨q1, h, Or.inl rfl⟩
    · rw [h1] at h
      simp only at h
      by_cases hi : r = i
      · subst hi
        rw [List.getElem?_set_self (by
          rcases Nat.lt_or_ge r d.scheduler.taskQueues.length with h2 | h2
          · exact h2
          · rw [List.getElem?_eq_none h2] at hq
            simp at hq)] at h
        simp only [Option.some.injEq] at h
        exact ⟨q, hq, Or.inr (Or.inl ⟨he, h.symm⟩)⟩
      · rw [List.getElem?_set_ne hi] at h
        exact ⟨q1, h, Or.inl rfl⟩
  | done k =>
    rcases step_done_cases d k with h1 | ⟨t, _, _, _, h1⟩
    · rw [h1] at h
      exact ⟨q1, h, Or.inl rfl⟩
    · rcases h1 with ⟨h1, _⟩ | ⟨q, hq, h1⟩
      · rw [h1] at h
        exact ⟨q1, h, Or.inl rfl⟩
      · rw [h1] at h
        simp only at h
        by_cases hi : t.queue = i
        · subst hi
          rw [List.getElem?_set_self (by
            rcases Nat.lt_or_ge t.queue d.scheduler.taskQueues.length with h2 | h2
            · exact h2
            · rw [List.getElem?_eq_none h2] at hq
              simp at hq)] at h
          simp only [Option.some.injEq] at h
          exact ⟨q, hq, Or.inr (Or.inr h.symm)⟩
        · rw [List.getElem?_set_ne hi] at h
          exact ⟨q1, h, Or.inl rfl⟩

theorem step_length (d : Driver) (c : Call) :
    (d.step c).scheduler.taskQueues.length = d.scheduler.taskQueues.length := by
  cases c with
  | nextTask =>
    rw [step_nextTask_scheduler]
    exact nextTask_length _
  | done k =>
    rcases step_done_cases d k with h1 | ⟨t, _, _, _, h1⟩
    · rw [h1]
    · rcases h1 with ⟨h1, _⟩ | ⟨q, _, h1⟩
      · rw [h1]
      · rw [h1]
        simp

theorem run_length (calls : List Call) (d : Driver) :
    (d.run calls).scheduler.taskQueues.length = d.scheduler.taskQueues.length := by
  induction calls generalizing d with
  | nil => rfl
  | cons c calls ih => rw [run_cons, ih, step_length]

/-- A property of queues that holds initially and is kept by a claim of an eligible queue and by
a release holds after every sequence of calls, position by position. -/
theorem run_queue (R : TaskQueue → TaskQueue → Prop) (hrefl : ∀ q, R q q)
    (hclaim : ∀ q0 q, R q0 q → q.eligible → R q0 q.claimed)
    (hrel : ∀ q0 q, R q0 q → R q0 q.released) (calls : List Call) (d : Driver) (i : Nat)
    (q1 : TaskQueue) (h : (d.run calls).scheduler.taskQueues[i]? = some q1) :
    ∃ q0, d.scheduler.taskQueues[i]? = some q0 ∧ R q0 q1 := by
  induction calls using List.reverseRecOn generalizing q1 with
  | nil => exact ⟨q1, h, hrefl q1⟩
  | append_singleton calls c ih =>
    rw [run_append] at h
    obtain ⟨q, hq, hcase⟩ := step_queue (d.run calls) c i q1 h
    obtain ⟨q0, hq0, hR⟩ := ih q hq
    refine ⟨q0, hq0, ?_⟩
    rcases hcase with h1 | ⟨he, h1⟩ | h1
    · rw [h1]
      exact hR
    · rw [h1]
      exact hclaim q0 q hR he
    · rw [h1]
      exact hrel q0 q hR

/-! ## Invariants of the queues -/

/-- The fields of a queue that no call changes, and the bounds that every call keeps. -/
theorem run_frame (calls : List Call) (d : Driver) (i : Nat) (q1 : TaskQueue)
    (h : (d.run calls).scheduler.taskQueues[i]? = some q1) :
    ∃ q0, d.scheduler.taskQueues[i]? = some q0 ∧ q1.capabilities = q0.capabilities ∧
      q1.maxInstance = q0.maxInstance ∧ q1.specLists = q0.specLists ∧
      q0.specsIndex ≤ q1.specsIndex ∧
      (q0.specsIndex ≤ q0.specLists.length → q1.specsIndex ≤ q1.specLists.length) ∧
      (q0.numRunningInstances ≤ q0.specsIndex → q1.numRunningInstances ≤ q1.specsIndex) := by
  apply run_queue (fun q0 q1 => q1.capabilities = q0.capabilities ∧
      q1.maxInstance = q0.maxInstance ∧ q1.specLists = q0.specLists ∧
      q0.specsIndex ≤ q1.specsIndex ∧
      (q0.specsIndex ≤ q0.specLists.length → q1.specsIndex ≤ q1.specLists.length) ∧
      (q0.numRunningInstances ≤ q0.specsIndex → q1.numRunningInstances ≤ q1.specsIndex))
    _ _ _ calls d i q1 h
  · intro q
    exact ⟨rfl, rfl, rfl, le_refl _, id, id⟩
  · rintro q0 q ⟨h1, h2, h3, h4, h5, h6⟩ he
    refine ⟨h1, h2, h3, ?_, ?_, ?_⟩
    · simp only [TaskQueue.claimed]
      omega
    · intro h0
      have := he.2
      simp only [TaskQueue.claimed]
      omega
    · intro h0
      have := h6 h0
      simp only [TaskQueue.claimed]
      push_cast
      omega
  · rintro q0 q ⟨h1, h2, h3, h4, h5, h6⟩
    refine ⟨h1, h2, h3, h4, h5, ?_⟩
    intro h0
    have := h6 h0
    simp only [TaskQueue.released]
    omega

theorem step_config (d : Driver) (c : Call) : (d.step c).scheduler.config = d.scheduler.config := by
  cases c with
  | nextTask =>
    rcases step_nextTask_cases d with ⟨_, h1, _, _⟩ | ⟨r, q, _, _, h1, _⟩ <;> rw [h1]
  | done k =>
    rcases step_done_cases d k with h1 | ⟨t, _, _, _, h1⟩
    · rw [h1]
    · rcases h1 with ⟨h1, _⟩ | ⟨q, _, h1⟩ <;> rw [h1]

theorem run_config (calls : List Call) (d : Driver) :
    (d.run calls).scheduler.config = d.scheduler.config := by
  induction calls generalizing d with
  | nil => rfl
  | cons c calls ih => rw [run_cons, ih, step_config]

/-- The state of a queue of a scheduler that was constructed and then called. -/
theorem reachable_queue (cp : ConfigParser) (config : Config) (calls : List Call) (i : Nat)
    (q : TaskQueue)
    (h : ((Driver.start (TaskScheduler.new cp config)).run calls).scheduler.taskQueues[i]? =
      some q) :
    ∃ q0, (TaskScheduler.new cp config).taskQueues[i]? = some q0 ∧
      q.capabilities = q0.capabilities ∧ q.maxInstance = q0.maxInstance ∧
      q.specLists = q0.specLists ∧ 0 ≤ q.numRunningInstances ∧
      q.numRunningInstances ≤ q.specsIndex ∧ q.specsIndex ≤ q.specLists.length ∧
      q.numRunningInstances ≤ max q.maxInstance 0 := by
  obtain ⟨q0, hq0, h1, h2, h3, _, h5, h6⟩ :=
    run_frame calls (Driver.start (TaskScheduler.new cp config)) i q h
  have hinv := run_invariant calls (Driver.start (TaskScheduler.new cp config))
    (start_invariant cp config) i q h
  obtain ⟨c, _, hc⟩ := new_queue cp config q0 (List.getElem?_mem hq0)
  have e1 : q0.specsIndex = 0 := by rw [hc]; rfl
  have e2 : q0.numRunningInstances = 0 := by rw [hc]; rfl
  refine ⟨q0, hq0, h1, h2, h3, by omega, ?_, ?_, hinv.2⟩
  · apply h6
    rw [e1, e2]
    rfl
  · apply h5
    rw [e1]
    exact Nat.zero_le _

theorem sum_eq_zero_iff_of_nonneg (l : List Int) (h : ∀ x ∈ l, 0 ≤ x) :
    l.sum = 0 ↔ ∀ x ∈ l, x = 0 := by
  induction l with
  | nil => simp
  | cons a as ih =>
    have ha := h a (List.mem_cons_self _ _)
    have has : ∀ x ∈ as, 0 ≤ x := fun x hx => h x (List.mem_cons_of_mem _ hx)
    have hs : 0 ≤ as.sum := List.sum_nonneg has
    simp only [List.sum_cons, List.mem_cons, forall_eq_or_imp]
    constructor
    · intro h0
      have h1 : a = 0 := by omega
      have h2 : as.sum = 0 := by omega
      exact ⟨h1, (ih has).mp h2⟩
    · rintro ⟨h1, h2⟩
      rw [h1, (ih has).mpr h2]
      rfl

/-- C12: in every state reached from a freshly constructed scheduler by `nextTask` calls and
releases of held tasks, `numTasksOutstanding()` is 0 exactly when every queue has
`specsIndex = specLists.length` and `numRunningInstances = 0`. -/
theorem numTasksOutstanding_zero_iff (cp : ConfigParser) (config : Config)
    (calls : List Call) :
    numTasksOutstanding ((Driver.start (TaskScheduler.new cp config)).run calls).scheduler = 0 ↔
      ∀ q ∈ ((Driver.start (TaskScheduler.new cp config)).run calls).scheduler.taskQueues,
        q.specsIndex = q.specLists.length ∧ q.numRunningInstances = 0 := by
  rw [numTasksOutstanding_eq_sum]
  generalize hd : (Driver.start (TaskScheduler.new cp config)).run calls = d
  have hq : ∀ q ∈ d.scheduler.taskQueues,
      0 ≤ q.numRunningInstances ∧ q.specsIndex ≤ q.specLists.length := by
    intro q hq
    obtain ⟨i, hi, hiq⟩ := List.getElem_of_mem hq
    have h : d.scheduler.taskQueues[i]? = some q := by
      rw [List.getElem?_eq_getElem hi, hiq]
    rw [← hd] at h
    obtain ⟨_, _, _, _, _, h4, _, h6, _⟩ := reachable_queue cp config calls i q h
    exact ⟨h4, h6⟩
  rw [sum_eq_zero_iff_of_nonneg]
  · simp only [List.mem_map, forall_exists_index, and_imp, forall_apply_eq_imp_iff₂]
    constructor
    · intro h q hmem
      have h1 := h q hmem
      have h2 := hq q hmem
      simp only [TaskQueue.outstanding] at h1
      omega
    · intro h q hmem
      have h1 := h q hmem
      simp only [TaskQueue.outstanding]
      omega
  · simp only [List.mem_map, forall_exists_index, and_imp, forall_apply_eq_imp_iff₂]
    intro q hmem
    have h2 := hq q hmem
    simp only [TaskQueue.outstanding]
    omega

/-! ## `maxConcurrentTasks` and `countActiveTasks` -/

theorem maxConcurrentTasks_of_pos (s : TaskScheduler) (m : Int)
    (h : s.config.maxSessions = some m) (hm : 0 < m) : maxConcurrentTasks s = m := by
  unfold maxConcurrentTasks
  rw [h]
  simp only
  rw [if_pos ⟨by omega, hm⟩]

theorem maxConcurrentTasks_of_not_pos (s : TaskScheduler)
    (h : ∀ m, s.config.maxSessions = some m → m ≤ 0) :
    maxConcurrentTasks s =
      (s.taskQueues.map (fun q => min q.maxInstance (q.specLists.length : Int))).sum := by
  have hsum := foldl_add_eq_sum (fun q : TaskQueue => min q.maxInstance (q.specLists.length : Int))
    s.taskQueues 0
  rw [Int.zero_add] at hsum
  unfold maxConcurrentTasks
  cases hms : s.config.maxSessions with
  | none => exact hsum
  | some m =>
    have := h m hms
    simp only
    rw [if_neg (by omega)]
    exact hsum

theorem countActiveTasks_eq_sum (s : TaskScheduler) :
    countActiveTasks s = (s.taskQueues.map (fun q => q.numRunningInstances)).sum := by
  have hsum := foldl_add_eq_sum (fun q : TaskQueue => q.numRunningInstances) s.taskQueues 0
  rw [Int.zero_add] at hsum
  exact hsum

/-- C14: `maxConcurrentTasks()` returns `config.maxSessions` unchanged when it is set and
greater than 0, and otherwise the sum over the queues of `min(maxInstance, specLists.length)`;
two schedulers that agree on `maxSessions` and on the `maxInstance` and `specLists` of their
queues give the same value, whatever their `specsIndex`, `numRunningInstances` and
`rotationIndex`. -/
theorem maxConcurrentTasks_spec (s : TaskScheduler) :
    (∀ m, s.config.maxSessions = some m → 0 < m → maxConcurrentTasks s = m) ∧
      ((∀ m, s.config.maxSessions = some m → m ≤ 0) →
        maxConcurrentTasks s =
          (s.taskQueues.map (fun q => min q.maxInstance (q.specLists.length : Int))).sum) ∧
      ∀ s2 : TaskScheduler, s2.config.maxSessions = s.config.maxSessions →
        s2.taskQueues.map (fun q => (q.maxInstance, q.specLists)) =
          s.taskQueues.map (fun q => (q.maxInstance, q.specLists)) →
        maxConcurrentTasks s2 = maxConcurrentTasks s := by
  refine ⟨maxConcurrentTasks_of_pos s, maxConcurrentTasks_of_not_pos s, ?_⟩
  intro s2 hms hqs
  have hmap : s2.taskQueues.map (fun q => min q.maxInstance (q.specLists.length : Int)) =
      s.taskQueues.map (fun q => min q.maxInstance (q.specLists.length : Int)) := by
    have := congrArg (List.map (fun p : Int × List (List String) => min p.1 (p.2.length : Int))) hqs
    simpa [List.map_map, Function.comp] using this
  by_cases hpos : ∃ m, s.config.maxSessions = some m ∧ 0 < m
  · obtain ⟨m, h1, h2⟩ := hpos
    rw [maxConcurrentTasks_of_pos s m h1 h2, maxConcurrentTasks_of_pos s2 m (hms.trans h1) h2]
  · have h1 : ∀ m, s.config.maxSessions = some m → m ≤ 0 := by
      intro m hm
      by_contra hlt
      exact hpos ⟨m, hm, by omega⟩
    rw [maxConcurrentTasks_of_not_pos s h1,
      maxConcurrentTasks_of_not_pos s2 (fun m hm => h1 m (hms ▸ hm)), hmap]

/-- C15: when no positive `maxSessions` is configured and every queue has `maxInstance >= 1`,
in every state reached from the freshly constructed scheduler by `nextTask` calls and releases
of held tasks, `countActiveTasks() <= maxConcurrentTasks()`, the latter being the sum over the
queues of `min(maxInstance, specLists.length)`. -/
theorem countActiveTasks_le_maxConcurrentTasks (cp : ConfigParser) (config : Config)
    (calls : List Call) (hmax : ∀ m, config.maxSessions = some m → m ≤ 0)
    (hcap : ∀ q ∈ (TaskScheduler.new cp config).taskQueues, 1 ≤ q.maxInstance) :
    countActiveTasks ((Driver.start (TaskScheduler.new cp config)).run calls).scheduler ≤
        maxConcurrentTasks ((Driver.start (TaskScheduler.new cp config)).run calls).scheduler ∧
      maxConcurrentTasks ((Driver.start (TaskScheduler.new cp config)).run calls).scheduler =
        (((Driver.start (TaskScheduler.new cp config)).run calls).scheduler.taskQueues.map
          (fun q => min q.maxInstance (q.specLists.length : Int))).sum := by
  have hcfg := run_config calls (Driver.start (TaskScheduler.new cp config))
  have hq : ∀ q ∈ ((Driver.start (TaskScheduler.new cp config)).run calls).scheduler.taskQueues,
      q.numRunningInstances ≤ min q.maxInstance (q.specLists.length : Int) := by
    intro q hq
    obtain ⟨i, hi, hiq⟩ := List.getElem_of_mem hq
    have h : ((Driver.start (TaskScheduler.new cp config)).run calls).scheduler.taskQueues[i]? =
        some q := by
      rw [List.getElem?_eq_getElem hi, hiq]
    obtain ⟨q0, hq0, _, h2, _, _, h5, h6, h7⟩ := reachable_queue cp config calls i q h
    have := hcap q0 (List.getElem?_mem hq0)
    rw [max_eq_left (by omega)] at h7
    exact le_min h7 (by omega)
  generalize (Driver.start (TaskScheduler.new cp config)).run calls = d at hcfg hq
  have hms : ∀ m, d.scheduler.config.maxSessions = some m → m ≤ 0 := by
    intro m hm
    rw [hcfg] at hm
    exact hmax m hm
  rw [maxConcurrentTasks_of_not_pos _ hms, countActiveTasks_eq_sum]
  exact ⟨List.sum_le_sum hq, rfl⟩

/-- Witness of C15: the sharded example scheduler (cap 2, three spec lists, no `maxSessions`)
after three `nextTask` calls, the third of which finds the queue at its cap. -/
theorem countActiveTasks_le_maxConcurrentTasks_witness :
    countActiveTasks
          ((Driver.start (TaskScheduler.new exampleParser
            (exampleConfig ["s1", "s2", "s3"]
              [{ plainCapabilities with maxInstances := some 2, shardTestFiles := true }]))).run
            [.nextTask, .nextTask, .nextTask]).scheduler ≤
        maxConcurrentTasks
          ((Driver.start (TaskScheduler.new exampleParser
            (exampleConfig ["s1", "s2", "s3"]
              [{ plainCapabilities with maxInstances := some 2, shardTestFiles := true }]))).run
            [.nextTask, .nextTask, .nextTask]).scheduler ∧
      maxConcurrentTasks
          ((Driver.start (TaskScheduler.new exampleParser
            (exampleConfig ["s1", "s2", "s3"]
              [{ plainCapabilities with maxInstances := some 2, shardTestFiles := true }]))).run
            [.nextTask, .nextTask, .nextTask]).scheduler =
        (((Driver.start (TaskScheduler.new exampleParser
            (exampleConfig ["s1", "s2", "s3"]
              [{ plainCapabilities with maxInstances := some 2, shardTestFiles := true }]))).run
            [.nextTask, .nextTask, .nextTask]).scheduler.taskQueues.map
          (fun q => min q.maxInstance (q.specLists.length : Int))).sum :=
  countActiveTasks_le_maxConcurrentTasks exampleParser
    (exampleConfig ["s1", "s2", "s3"]
      [{ plainCapabilities with maxInstances := some 2, shardTestFiles := true }])
    [.nextTask, .nextTask, .nextTask] (fun m h => by simp [exampleConfig] at h) (by decide)

/-! ## A lane without spec files -/

theorem numTasksOutstanding_single (s : TaskScheduler) (q : TaskQueue)
    (h : s.taskQueues = [q]) : numTasksOutstanding s = q.outstanding := by
  rw [numTasksOutstanding_eq_sum, h]
  simp

/-- After its only task has been dispatched, a lane with a single spec list answers every
`nextTask` call with `null`; the task is held or has been released. -/
theorem exhausted_lane_run (T : Task) (hT : T.queue = 0) (calls : List Call) (d : Driver)
    (q : TaskQueue) (hq : d.scheduler.taskQueues = [q]) (hidx : q.specsIndex = 1)
    (hlists : q.specLists.length = 1)
    (hheld : (d.tasks = [T] ∧ q.numRunningInstances = 1) ∨
      (d.tasks = [] ∧ q.numRunningInstances = 0)) :
    (d.run calls).log = d.log ++ List.replicate (calls.count .nextTask) .null ∧
      (((d.run calls).tasks = [T] ∧ numTasksOutstanding (d.run calls).scheduler = 1) ∨
        ((d.run calls).tasks = [] ∧ numTasksOutstanding (d.run calls).scheduler = 0)) := by
  induction calls generalizing d q with
  | nil =>
    refine ⟨by simp [Driver.run], ?_⟩
    rw [show d.run [] = d from rfl, numTasksOutstanding_single _ q hq]
    simp only [TaskQueue.outstanding, hidx, hlists]
    rcases hheld with ⟨h1, h2⟩ | ⟨h1, h2⟩
    · exact Or.inl ⟨h1, by rw [h2]; rfl⟩
    · exact Or.inr ⟨h1, by rw [h2]; rfl⟩
  | cons c calls ih =>
    rw [run_cons]
    cases c with
    | nextTask =>
      have hne : ¬ q.eligible := by
        simp only [TaskQueue.eligible, hidx, hlists]
        omega
      have hnull := nextTask_single_of_not_eligible d.scheduler q hq hne
      have h1 : (d.step .nextTask).scheduler = d.scheduler := by
        rw [step_nextTask_scheduler, hnull]
      have h2 : (d.step .nextTask).tasks = d.tasks := by
        rw [step_nextTask_tasks, hnull]
      have h3 : (d.step .nextTask).log = d.log ++ [.null] := by
        rw [step_nextTask_log, hnull]
      obtain ⟨ih1, ih2⟩ := ih (d.step .nextTask) q (by rw [h1, hq]) hidx hlists (by rw [h2]; exact hheld)
      refine ⟨?_, ih2⟩
      rw [ih1, h3, List.count_cons_self, List.replicate_succ, List.append_assoc]
      rfl
    | done k =>
      have hcount : (Call.done k :: calls).count .nextTask = calls.count .nextTask := by
        rw [List.count_cons_of_ne (by simp)]
      rw [hcount]
      rcases step_done_cases d k with h1 | ⟨t, ht, h2, h3, h4⟩
      · rw [h1]
        exact ih d q hq hidx hlists hheld
      · rcases hheld with ⟨hd1, hd2⟩ | ⟨hd1, hd2⟩
        · rw [hd1] at ht h2
          have hk : k = 0 := by
            cases k with
            | zero => rfl
            | succ k => simp at ht
          subst hk
          simp only [List.getElem?_cons_zero, Option.some.injEq] at ht
          subst ht
          rcases h4 with ⟨_, h4⟩ | ⟨q0, hq0, h4⟩
          · rw [hq, hT] at h4
            simp at h4
          · rw [hq, hT] at hq0
            simp only [List.getElem?_cons_zero, Option.some.injEq] at hq0
            subst hq0
            rw [hq, hT] at h4
            obtain ⟨ih1, ih2⟩ := ih (d.step (.done 0)) q.released (by rw [h4]; rfl) hidx hlists
              (Or.inr ⟨by rw [h2]; rfl, by simp only [TaskQueue.released, hd2]; rfl⟩)
            rw [h3] at ih1
            exact ⟨ih1, ih2⟩
        · rw [hd1] at ht
          simp at ht

/-- The empty-lane scenario on lanes on which line 129 does not raise: for a scheduler built
from a single unsharded capability entry (with a cap of at least 1) whose resolved spec list is
empty, the first `nextTask` call returns a task whose `specs` is the empty list and every later
`nextTask` call returns `null`, whether the task has been released or not;
`numTasksOutstanding()` is 1 before the first call and as long as the task is held, and 0 once
it has been released. -/
theorem empty_unsharded_lane (cp : ConfigParser) (config : Config) (c : Capabilities)
    (calls : List Call) (hc : config.multiCapabilities = [c])
    (hshard : c.shardTestFiles = false) (hcount : jsOr c.count 1 = 1)
    (hcap : 1 ≤ jsOr c.maxInstances 1) (hspecs : capabilitiesSpecs cp config c = [])
    (hb : c.buildable) :
    numTasksOutstanding (TaskScheduler.new cp config) = 1 ∧
      ((Driver.start (TaskScheduler.new cp config)).run (.nextTask :: calls)).log =
        .task (emptyLaneTask (setCount c)) :: List.replicate (calls.count .nextTask) .null ∧
      ((((Driver.start (TaskScheduler.new cp config)).run (.nextTask :: calls)).tasks =
            [emptyLaneTask (setCount c)] ∧
          numTasksOutstanding
            ((Driver.start (TaskScheduler.new cp config)).run (.nextTask :: calls)).scheduler =
              1) ∨
        (((Driver.start (TaskScheduler.new cp config)).run (.nextTask :: calls)).tasks = [] ∧
          numTasksOutstanding
            ((Driver.start (TaskScheduler.new cp config)).run (.nextTask :: calls)).scheduler =
              0)) := by
  have hqs : (TaskScheduler.new cp config).taskQueues = [TaskQueue.new (setCount c) [[]]] := by
    rw [new_taskQueues_cons cp config c [] hc]
    simp [queuesFor, specLists, hcount, hshard, hspecs, List.replicate]
  have h0 : numTasksOutstanding (TaskScheduler.new cp config) = 1 := by
    rw [numTasksOutstanding_single _ _ hqs]
    rfl
  have hnt := nextTask_single_of_eligible (TaskScheduler.new cp config)
    (TaskQueue.new (setCount c) [[]]) hqs
    (by simp only [TaskQueue.new, setCount]; omega) (by simp [TaskQueue.new]) hb
  have htid : taskIdOf 0 (TaskQueue.new (setCount c) [[]]) = .num 1 := by
    simp [taskIdOf, TaskQueue.new]
  rw [htid] at hnt
  have hstep : (Driver.start (TaskScheduler.new cp config)).step .nextTask =
      { scheduler :=
          { TaskScheduler.new cp config with
            rotationIndex := 1
            taskQueues := [(TaskQueue.new (setCount c) [[]]).claimed] }
        tasks := [emptyLaneTask (setCount c)]
        log := [.task (emptyLaneTask (setCount c))] } := by
    simp only [Driver.step, Driver.start, hnt]
    rfl
  rw [run_cons, hstep]
  obtain ⟨h1, h2⟩ := exhausted_lane_run (emptyLaneTask (setCount c)) rfl calls
    { scheduler :=
        { TaskScheduler.new cp config with
          rotationIndex := 1
          taskQueues := [(TaskQueue.new (setCount c) [[]]).claimed] }
      tasks := [emptyLaneTask (setCount c)]
      log := [.task (emptyLaneTask (setCount c))] }
    (TaskQueue.new (setCount c) [[]]).claimed rfl rfl rfl (Or.inl ⟨rfl, rfl⟩)
  exact ⟨h0, h1, h2⟩

/-- C11 fails on the code.  For `multiCapabilities: [{}]` with no spec file the calls go as the
claim says: the first call returns a task with `specs = []`, the later calls return `null`, and
`numTasksOutstanding()` is 1 until the task is released and 0 after.  With
`browserName: 'chrome'` (and no `cxstudioOptions`), or with `browserName: 'toString'`, the first
call raises the `TypeError` of line 129 instead of returning the task; the later calls return
`null`, there is no task to release and `numTasksOutstanding()` stays at 1. -/
theorem empty_lane_raises_for_chrome :
    (((Driver.start (TaskScheduler.new exampleParser emptyLaneConfig)).run
            [.nextTask, .nextTask, .done 0, .nextTask]).log =
          [.task
              { capabilities := { plainCapabilities with count := some 1 }
                specs := [], taskId := .num 1, queue := 0 },
            .null, .null] ∧
        numTasksOutstanding (TaskScheduler.new exampleParser emptyLaneConfig) = 1 ∧
        numTasksOutstanding
          ((Driver.start (TaskScheduler.new exampleParser emptyLaneConfig)).run
            [.nextTask, .nextTask]).scheduler = 1 ∧
        numTasksOutstanding
          ((Driver.start (TaskScheduler.new exampleParser emptyLaneConfig)).run
            [.nextTask, .nextTask, .done 0, .nextTask]).scheduler = 0) ∧
      (((Driver.start chromeEmptyLaneScheduler).run
            [.nextTask, .nextTask, .done 0, .nextTask]).log =
          [.typeError
              { capabilities :=
                  { plainCapabilities with browserName := some "chrome", count := some 1 }
                specs := [], taskId := .num 1, queue := 0 },
            .null, .null] ∧
        ((Driver.start chromeEmptyLaneScheduler).run
            [.nextTask, .nextTask, .done 0, .nextTask]).tasks = [] ∧
        numTasksOutstanding
          ((Driver.start chromeEmptyLaneScheduler).run
            [.nextTask, .nextTask, .done 0, .nextTask]).scheduler = 1) ∧
      (((Driver.start inheritedEmptyLaneScheduler).run
            [.nextTask, .nextTask, .done 0, .nextTask]).log =
          [.typeError
              { capabilities :=
                  { plainCapabilities with browserName := some "toString", count := some 1 }
                specs := [], taskId := .num 1, queue := 0 },
            .null, .null] ∧
        numTasksOutstanding
          ((Driver.start inheritedEmptyLaneScheduler).run
            [.nextTask, .nextTask, .done 0, .nextTask]).scheduler = 1) := by
  decide

/-! ## Capability builders inside `nextTask` -/

/-- C13 fails on the code: built from `multiCapabilities: [{browserName: 'chrome'}]` (or
`'firefox'`) without `cxstudioOptions`, the scheduler's first `nextTask` call raises the
`TypeError` of the capability builder instead of yielding a task or `null`, after it has
advanced `rotationIndex`, `numRunningInstances` and `specsIndex` of the queue.  The call also
raises for a `browserName` such as `'toString'`, which finds a member inherited from
`Object.prototype` that has no `build`. -/
theorem nextTask_raises_without_cxstudioOptions :
    (nextTask chromeScheduler).1 =
        .typeError
          { capabilities := { plainCapabilities with browserName := some "chrome", count := some 1 }
            specs := ["s1"], taskId := .num 1, queue := 0 } ∧
      (nextTask chromeScheduler).2.rotationIndex = 1 ∧
      (nextTask chromeScheduler).2.taskQueues.map
          (fun q => (q.numRunningInstances, q.specsIndex)) = [(1, 1)] ∧
      (nextTask firefoxScheduler).1 =
        .typeError
          { capabilities :=
              { plainCapabilities with browserName := some "firefox", count := some 1 }
            specs := ["s1"], taskId := .num 1, queue := 0 } ∧
      (nextTask inheritedEmptyLaneScheduler).1 =
        .typeError
          { capabilities :=
              { plainCapabilities with browserName := some "toString", count := some 1 }
            specs := [], taskId := .num 1, queue := 0 } := by
  decide

/-- A `nextTask` call raises exactly when the queue it dispatches from has a capability
descriptor whose builder raises. -/
theorem nextTask_typeError_iff (s : TaskScheduler) (t : Task) :
    (nextTask s).1 = .typeError t ↔
      ∃ q, s.taskQueues[t.queue]? = some q ∧ ¬ q.capabilities.buildable ∧
        (nextTask s).1.result? = some t := by
  rcases nextTask_cases s with ⟨j, q, he, _, h3, _, h5⟩ | ⟨_, h2⟩
  · by_cases hb : q.capabilities.buildable
    · have h1 := dispatch_fst_buildable s (rotatedIndex s j) q he.2 hb
      rw [h5, h1]
      constructor
      · intro h
        simp at h
      · rintro ⟨q1, hq1, hb1, hr⟩
        simp only [NextResult.result?, Option.some.injEq] at hr
        subst hr
        simp only [expectedTask] at hq1
        rw [h3] at hq1
        simp only [Option.some.injEq] at hq1
        subst hq1
        exact absurd hb hb1
    · have h1 := dispatch_fst_not_buildable s (rotatedIndex s j) q he.2 hb
      rw [h5, h1]
      constructor
      · intro h
        simp only [NextResult.typeError.injEq] at h
        subst h
        exact ⟨q, h3, hb, rfl⟩
      · rintro ⟨_, _, _, hr⟩
        simp only [NextResult.result?, Option.some.injEq] at hr
        rw [hr]
  · rw [h2]
    constructor
    · intro h
      simp at h
    · rintro ⟨_, _, _, hr⟩
      simp [NextResult.result?] at hr

/-! ## The capability template and the rotation index -/

theorem map_set_of_eq {α β : Type} (f : α → β) (l : List α) (i : Nat) (q x : α)
    (h : l[i]? = some q) (hf : f x = f q) : (l.set i x).map f = l.map f := by
  induction l generalizing i with
  | nil => rfl
  | cons y ys ih =>
    cases i with
    | zero =>
      simp only [List.getElem?_cons_zero, Option.some.injEq] at h
      subst h
      simp [hf]
    | succ i =>
      simp only [List.getElem?_cons_succ] at h
      simp only [List.set_cons_succ, List.map_cons, ih i h]

theorem step_capabilities (d : Driver) (c : Call) :
    (d.step c).scheduler.taskQueues.map (fun q => q.capabilities) =
      d.scheduler.taskQueues.map (fun q => q.capabilities) := by
  cases c with
  | nextTask =>
    rcases step_nextTask_cases d with ⟨_, h1, _, _⟩ | ⟨r, q, hq, _, h1, _⟩
    · rw [h1]
    · rw [h1]
      exact map_set_of_eq _ _ r q _ hq rfl
  | done k =>
    rcases step_done_cases d k with h1 | ⟨t, _, _, _, h1⟩
    · rw [h1]
    · rcases h1 with ⟨h1, _⟩ | ⟨q, hq, h1⟩
      · rw [h1]
      · rw [h1]
        exact map_set_of_eq _ _ t.queue q _ hq rfl

theorem run_capabilities (calls : List Call) (d : Driver) :
    (d.run calls).scheduler.taskQueues.map (fun q => q.capabilities) =
      d.scheduler.taskQueues.map (fun q => q.capabilities) := by
  induction calls generalizing d with
  | nil => rfl
  | cons c calls ih => rw [run_cons, ih, step_capabilities]

theorem returnedTasks_append (a b : List NextResult) :
    returnedTasks (a ++ b) = returnedTasks a ++ returnedTasks b := by
  simp [returnedTasks, List.filterMap_append]

/-- Every task in the log was built by a `nextTask` call from an eligible queue. -/
theorem mem_returnedTasks_run (calls : List Call) (d : Driver) (t : Task)
    (h : t ∈ returnedTasks (d.run calls).log) :
    t ∈ returnedTasks d.log ∨
      ∃ calls1 calls2 r q, calls = calls1 ++ .nextTask :: calls2 ∧
        (d.run calls1).scheduler.taskQueues[r]? = some q ∧ q.eligible ∧
        q.capabilities.buildable ∧ t = expectedTask r q := by
  induction calls using List.reverseRecOn with
  | nil => exact Or.inl h
  | append_singleton calls c ih =>
    rw [run_append] at h
    have hstep : (d.run calls).run [c] = (d.run calls).step c := rfl
    rw [hstep] at h
    have hold : t ∈ returnedTasks (d.run calls).log →
        t ∈ returnedTasks d.log ∨
          ∃ calls1 calls2 r q, calls ++ [c] = calls1 ++ .nextTask :: calls2 ∧
            (d.run calls1).scheduler.taskQueues[r]? = some q ∧ q.eligible ∧
            q.capabilities.buildable ∧ t = expectedTask r q := by
      intro h1
      rcases ih h1 with h2 | ⟨calls1, calls2, r, q, h3, h4⟩
      · exact Or.inl h2
      · exact Or.inr ⟨calls1, calls2 ++ [c], r, q, by rw [h3]; simp, h4⟩
    cases c with
    | nextTask =>
      rcases step_nextTask_cases (d.run calls) with ⟨_, _, _, h1⟩ | ⟨r, q, hq, he, _, h1⟩
      · rw [h1, returnedTasks_append] at h
        simp only [returnedTasks, List.filterMap_cons, List.filterMap_nil, List.append_nil] at h
        exact hold h
      · rcases h1 with ⟨hb, _, h1⟩ | ⟨_, _, h1⟩
        · rw [h1, returnedTasks_append] at h
          rcases List.mem_append.mp h with h2 | h2
          · exact hold h2
          · simp only [returnedTasks, List.filterMap_cons, List.filterMap_nil,
              List.mem_singleton] at h2
            exact Or.inr ⟨calls, [], r, q, rfl, hq, he, hb, h2⟩
        · rw [h1, returnedTasks_append] at h
          simp only [returnedTasks, List.filterMap_cons, List.filterMap_nil,
            List.append_nil] at h
          exact hold h
    | done k =>
      rcases step_done_cases (d.run calls) k with h1 | ⟨_, _, _, h1, _⟩
      · rw [h1] at h
        exact hold h
      · rw [h1] at h
        exact hold h

/-- C16: a `nextTask` call leaves the `capabilities` of every queue as it was, also when a
capability builder writes to the descriptor of the task; the same holds after any sequence of
calls, and the descriptor of every task returned along the way is the result of the builder, if
any, on the `capabilities` that its queue had at the start. -/
theorem nextTask_preserves_capabilities (s : TaskScheduler) (calls : List Call) :
    (nextTask s).2.taskQueues.map (fun q => q.capabilities) =
        s.taskQueues.map (fun q => q.capabilities) ∧
      ((Driver.start s).run calls).scheduler.taskQueues.map (fun q => q.capabilities) =
        s.taskQueues.map (fun q => q.capabilities) ∧
      ∀ t ∈ returnedTasks ((Driver.start s).run calls).log,
        ∃ q, s.taskQueues[t.queue]? = some q ∧
          t.capabilities = builtCapability q.capabilities t.taskId := by
  refine ⟨?_, run_capabilities calls (Driver.start s), ?_⟩
  · have := step_capabilities (Driver.start s) .nextTask
    rw [step_nextTask_scheduler] at this
    exact this
  · intro t ht
    rcases mem_returnedTasks_run calls (Driver.start s) t ht with h1 | ⟨c1, _, r, q, _, hq, _, _, h2⟩
    · simp [Driver.start, returnedTasks] at h1
    · obtain ⟨q0, hq0, hcap, _⟩ := run_frame c1 (Driver.start s) r q hq
      refine ⟨q0, ?_, ?_⟩
      · rw [h2]
        exact hq0
      · rw [h2]
        simp only [expectedTask, hcap]

/-- Witness of C16: a sharded chrome lane whose template carries `chromeOptions` of its own.
Both tasks get the `chromeOptions` written by the builder; the template keeps its own. -/
theorem nextTask_preserves_capabilities_witness :
    ((Driver.start enrichedScheduler).run [.nextTask, .nextTask]).scheduler.taskQueues.map
        (fun q => q.capabilities.chromeOptions) =
        [some { args := ["--headless"], prefs := none }] ∧
      (returnedTasks ((Driver.start enrichedScheduler).run [.nextTask, .nextTask]).log).map
        (fun t => t.capabilities.chromeOptions) =
        [some
            { args := []
              prefs := some
                { download := some
                    { prompt_for_download := some false
                      default_directory := some "C:\\dl\\1a" } } },
          some
            { args := []
              prefs := some
                { download := some
                    { prompt_for_download := some false
                      default_directory := some "C:\\dl\\1b" } } }] ∧
      ((Driver.start enrichedScheduler).run [.nextTask, .nextTask]).scheduler.taskQueues.map
        (fun q => q.capabilities) =
        enrichedScheduler.taskQueues.map (fun q => q.capabilities) :=
  ⟨by decide, by decide,
    (nextTask_preserves_capabilities enrichedScheduler [.nextTask, .nextTask]).2.1⟩

theorem step_rotationIndex (d : Driver) (c : Call)
    (h : d.scheduler.rotationIndex ≤ d.scheduler.taskQueues.length) :
    (d.step c).scheduler.rotationIndex ≤ (d.step c).scheduler.taskQueues.length := by
  rw [step_length]
  cases c with
  | nextTask =>
    rcases step_nextTask_cases d with ⟨_, h1, _, _⟩ | ⟨r, q, hq, _, h1, _⟩
    · rw [h1]
      exact h
    · rw [h1]
      simp only
      have hr : r < d.scheduler.taskQueues.length := by
        rcases Nat.lt_or_ge r d.scheduler.taskQueues.length with h2 | h2
        · exact h2
        · rw [List.getElem?_eq_none h2] at hq
          simp at hq
      omega
  | done k =>
    rcases step_done_cases d k with h1 | ⟨t, _, _, _, h1⟩
    · rw [h1]
      exact h
    · rcases h1 with ⟨h1, _⟩ | ⟨q, _, h1⟩
      · rw [h1]
        exact h
      · rw [h1]
        exact h

theorem run_rotationIndex (calls : List Call) (d : Driver)
    (h : d.scheduler.rotationIndex ≤ d.scheduler.taskQueues.length) :
    (d.run calls).scheduler.rotationIndex ≤ (d.run calls).scheduler.taskQueues.length := by
  induction calls generalizing d with
  | nil => exact h
  | cons c calls ih =>
    rw [run_cons]
    exact ih (d.step c) (step_rotationIndex d c h)

/-- C17 (as amended): in every state reached from a freshly constructed scheduler by `nextTask`
calls and releases, `0 <= rotationIndex <= queueCount`; after a `nextTask` call that returns a
task, `rotationIndex` is the position of the served queue plus 1, which is `queueCount` when
the last queue was served (the scan reduces it modulo `queueCount` when it reads it). -/
theorem rotationIndex_le_queueCount :
    (∀ (cp : ConfigParser) (config : Config) (calls : List Call),
      ((Driver.start (TaskScheduler.new cp config)).run calls).scheduler.rotationIndex ≤
        ((Driver.start (TaskScheduler.new cp config)).run calls).scheduler.taskQueues.length) ∧
      ∀ (s s1 : TaskScheduler) (t : Task), nextTask s = (.task t, s1) →
        t.queue < s.taskQueues.length ∧ s1.rotationIndex = t.queue + 1 ∧
          rotatedIndex s1 0 = (t.queue + 1) % s.taskQueues.length := by
  constructor
  · intro cp config calls
    exact run_rotationIndex calls (Driver.start (TaskScheduler.new cp config)) (Nat.zero_le _)
  · intro s s1 t h
    have hlt : t.queue < s.taskQueues.length :=
      nextTask_result_queue_lt s t (by rw [h]; rfl)
    rcases nextTask_cases s with ⟨j, q, he, _, h3, _, h5⟩ | ⟨_, h2⟩
    · obtain ⟨r, hr1, hr2, _, _⟩ := dispatch_result s (rotatedIndex s j) q he.2
      have hsnd := dispatch_snd s (rotatedIndex s j) q he.2
      rw [← h5, h] at hr1 hsnd
      simp only [NextResult.result?, Option.some.injEq] at hr1
      subst hr1
      simp only at hsnd
      have hrot : s1.rotationIndex = t.queue + 1 := by rw [hsnd, hr2]
      have hlen : s1.taskQueues.length = s.taskQueues.length := by
        rw [hsnd]
        simp
      refine ⟨hlt, hrot, ?_⟩
      rw [rotatedIndex, hrot, hlen, Nat.zero_add]
    · rw [h2] at h
      simp at h

/-- C17 as stated fails: after the first `nextTask` call on the sharded example scheduler, which
has one queue, `rotationIndex` is 1, which is the number of queues and not `(0 + 1) mod 1`. -/
theorem rotationIndex_lt_queueCount_counterexample :
    (nextTask shardedScheduler).1 = .task shardedTask1a ∧
      (nextTask shardedScheduler).2.rotationIndex = 1 ∧
      (nextTask shardedScheduler).2.taskQueues.length = 1 ∧
      ¬ (nextTask shardedScheduler).2.rotationIndex <
        (nextTask shardedScheduler).2.taskQueues.length ∧
      (nextTask shardedScheduler).2.rotationIndex ≠
        (shardedTask1a.queue + 1) % shardedScheduler.taskQueues.length := by
  decide

/-! ## The chrome builder -/

/-- C20: for every capability descriptor with a `cxstudioOptions` object and every `taskId`,
`build` of the chrome builder resolves to the descriptor it was given with `chromeOptions` set
to exactly `prefs.download = (prompt_for_download: false, default_directory:
cxstudioOptions.downloadDirectory + "\" + taskId)`, the concatenation turning an absent
directory into the text `undefined` and a number into its decimal rendering: whatever
`chromeOptions` held before is gone and every other field is unchanged.  This is the descriptor
of the task that `nextTask` returns for a chrome queue. -/
theorem chrome_build_sets_chromeOptions (runCapability : Capabilities)
    (cxstudioOptions : CxstudioOptions) (taskId : TaskId)
    (h : runCapability.cxstudioOptions = some cxstudioOptions) :
    ∃ capability, ChromeCapabilityBuilder.build runCapability taskId = .ok capability ∧
      capability.chromeOptions = some
        { args := []
          prefs := some
            { download := some
                { prompt_for_download := some false
                  default_directory :=
                    some
                      ((match cxstudioOptions.downloadDirectory with
                          | some directory => directory
                          | none => "undefined") ++ "\\" ++
                        (match taskId with
                          | .str s => s
                          | .num n => toString n)) } } } ∧
      capability.browserName = runCapability.browserName ∧
      capability.maxInstances = runCapability.maxInstances ∧
      capability.shardTestFiles = runCapability.shardTestFiles ∧
      capability.count = runCapability.count ∧
      capability.specs = runCapability.specs ∧
      capability.exclude = runCapability.exclude ∧
      capability.cxstudioOptions = runCapability.cxstudioOptions ∧
      capability.firefox_profile = runCapability.firefox_profile ∧
      (runCapability.browserName = some "chrome" →
        builtCapability runCapability taskId = capability) := by
  have hdir : jsString cxstudioOptions.downloadDirectory =
      (match cxstudioOptions.downloadDirectory with
        | some directory => directory
        | none => "undefined") := by
    cases cxstudioOptions.downloadDirectory <;> rfl
  have hid : taskId.asString =
      (match taskId with
        | .str s => s
        | .num n => toString n) := by
    cases taskId <;> rfl
  refine ⟨{ runCapability with
      chromeOptions := some
        { args := []
          prefs := some
            { download := some
                { prompt_for_download := some false
                  default_directory :=
                    some (jsString cxstudioOptions.downloadDirectory ++ "\\" ++
                      taskId.asString) } } } },
    by simp only [ChromeCapabilityBuilder.build, h], ?_, rfl, rfl, rfl, rfl, rfl, rfl, rfl, rfl,
    ?_⟩
  · simp only [hdir, hid]
  · intro hb
    simp [builtCapability, capabilityBuilders, hb, ChromeCapabilityBuilder.build, h]

/-- Witness of C20: the chrome capability entry of the examples, whose download directory is
`C:\dl` and which already carries `chromeOptions: {args: ['--headless']}`, built for the task
id `1a`: the download directory of the task is `C:\dl\1a` and the `args` are gone. -/
theorem chrome_build_sets_chromeOptions_witness :
    ChromeCapabilityBuilder.build chromeCapabilities (.str "1a") =
        .ok
          { plainCapabilities with
            browserName := some "chrome"
            maxInstances := some 2
            shardTestFiles := true
            cxstudioOptions := some { userAgent := none, downloadDirectory := some "C:\\dl" }
            chromeOptions := some
              { args := []
                prefs := some
                  { download := some
                      { prompt_for_download := some false
                        default_directory := some "C:\\dl\\1a" } } } } ∧
      ChromeCapabilityBuilder.build
          { chromeCapabilities with
            cxstudioOptions := some { userAgent := none, downloadDirectory := none } }
          (.num 1) =
        .ok
          { plainCapabilities with
            browserName := some "chrome"
            maxInstances := some 2
            shardTestFiles := true
            cxstudioOptions := some { userAgent := none, downloadDirectory := none }
            chromeOptions := some
              { args := []
                prefs := some
                  { download := some
                      { prompt_for_download := some false
                        default_directory := some "undefined\\1" } } } } ∧
      ∃ capability, ChromeCapabilityBuilder.build chromeCapabilities (.str "1a") = .ok capability ∧
        capability.chromeOptions = some
          { args := []
            prefs := some
              { download := some
                  { prompt_for_download := some false
                    default_directory := some ("C:\\dl" ++ "\\" ++ "1a") } } } ∧
        capability.browserName = chromeCapabilities.browserName ∧
        capability.maxInstances = chromeCapabilities.maxInstances ∧
        capability.shardTestFiles = chromeCapabilities.shardTestFiles ∧
        capability.count = chromeCapabilities.count ∧
        capability.specs = chromeCapabilities.specs ∧
        capability.exclude = chromeCapabilities.exclude ∧
        capability.cxstudioOptions = chromeCapabilities.cxstudioOptions ∧
        capability.firefox_profile = chromeCapabilities.firefox_profile ∧
        (chromeCapabilities.browserName = some "chrome" →
          builtCapability chromeCapabilities (.str "1a") = capability) :=
  ⟨by rfl, by rfl,
    chrome_build_sets_chromeOptions chromeCapabilities
      { userAgent := none, downloadDirectory := some "C:\\dl" } (.str "1a") rfl⟩

/-! ## The order of dispatch within a queue -/

theorem returnedFrom_append (i : Nat) (a b : List NextResult) :
    returnedFrom i (a ++ b) = returnedFrom i a ++ returnedFrom i b := by
  simp [returnedFrom, returnedTasks_append, List.filter_append]

theorem returnedFrom_null (i : Nat) : returnedFrom i [.null] = [] := rfl

theorem returnedFrom_typeError (i : Nat) (t : Task) : returnedFrom i [.typeError t] = [] := rfl

theorem returnedFrom_task_self (t : Task) : returnedFrom t.queue [.task t] = [t] := by
  simp [returnedFrom, returnedTasks]

theorem returnedFrom_task_ne (i : Nat) (t : Task) (h : t.queue ≠ i) :
    returnedFrom i [.task t] = [] := by
  simp [returnedFrom, returnedTasks, h]

theorem getElem?_some_lt {α : Type} (l : List α) (i : Nat) (x : α) (h : l[i]? = some x) :
    i < l.length := by
  rcases Nat.lt_or_ge i l.length with h1 | h1
  · exact h1
  · rw [List.getElem?_eq_none h1] at h
    simp at h

/-- The spec lists carried by the tasks returned from a queue are the first `specsIndex` spec
lists of the queue, in order (none at all when the builder of the queue raises). -/
theorem step_dispatch_order (d : Driver) (c : Call)
    (hinv : ∀ i q, d.scheduler.taskQueues[i]? = some q →
      (returnedFrom i d.log).map Task.specs =
        q.specLists.take (if q.capabilities.buildable then q.specsIndex else 0)) :
    ∀ i q, (d.step c).scheduler.taskQueues[i]? = some q →
      (returnedFrom i (d.step c).log).map Task.specs =
        q.specLists.take (if q.capabilities.buildable then q.specsIndex else 0) := by
  intro i q1 h
  cases c with
  | nextTask =>
    rcases step_nextTask_cases d with ⟨_, h1, _, h2⟩ | ⟨r, q, hq, he, h1, h2⟩
    · rw [h1] at h
      rw [h2, returnedFrom_append, returnedFrom_null, List.append_nil]
      exact hinv i q1 h
    · rw [h1] at h
      simp only at h
      have hr := getElem?_some_lt _ _ _ hq
      by_cases hi : r = i
      · subst hi
        rw [List.getElem?_set_self hr] at h
        simp only [Option.some.injEq] at h
        subst h
        have hold := hinv r q hq
        rcases h2 with ⟨hb, _, h2⟩ | ⟨hb, _, h2⟩
        · have hT : (expectedTask r q).queue = r := rfl
          have hrf : returnedFrom r [NextResult.task (expectedTask r q)] = [expectedTask r q] := by
            have := returnedFrom_task_self (expectedTask r q)
            rw [hT] at this
            exact this
          rw [h2, returnedFrom_append, hrf, List.map_append, hold]
          have hb1 : q.claimed.capabilities.buildable := hb
          rw [if_pos hb, if_pos hb1]
          simp only [TaskQueue.claimed, List.map_cons, List.map_nil, expectedTask]
          rw [List.take_succ, List.getElem?_eq_getElem he.2]
          rfl
        · have hb1 : ¬ q.claimed.capabilities.buildable := hb
          rw [h2, returnedFrom_append, returnedFrom_typeError, List.append_nil, hold, if_neg hb,
            if_neg hb1]
          rfl
      · rw [List.getElem?_set_ne hi] at h
        have hold := hinv i q1 h
        rcases h2 with ⟨_, _, h2⟩ | ⟨_, _, h2⟩
        · rw [h2, returnedFrom_append, returnedFrom_task_ne i _ hi, List.append_nil]
          exact hold
        · rw [h2, returnedFrom_append, returnedFrom_typeError, List.append_nil]
          exact hold
  | done k =>
    rcases step_done_cases d k with h1 | ⟨t, _, _, h2, h3⟩
    · rw [h1] at h ⊢
      exact hinv i q1 h
    · rw [h2]
      rcases h3 with ⟨h3, _⟩ | ⟨q, hq, h3⟩
      · rw [h3] at h
        exact hinv i q1 h
      · rw [h3] at h
        simp only at h
        by_cases hi : t.queue = i
        · subst hi
          rw [List.getElem?_set_self (getElem?_some_lt _ _ _ hq)] at h
          simp only [Option.some.injEq] at h
          subst h
          exact hinv _ q hq
        · rw [List.getElem?_set_ne hi] at h
          exact hinv i q1 h

theorem run_dispatch_order (calls : List Call) (d : Driver)
    (hinv : ∀ i q, d.scheduler.taskQueues[i]? = some q →
      (returnedFrom i d.log).map Task.specs =
        q.specLists.take (if q.capabilities.buildable then q.specsIndex else 0)) :
    ∀ i q, (d.run calls).scheduler.taskQueues[i]? = some q →
      (returnedFrom i (d.run calls).log).map Task.specs =
        q.specLists.take (if q.capabilities.buildable then q.specsIndex else 0) := by
  induction calls generalizing d with
  | nil => exact hinv
  | cons c calls ih =>
    rw [run_cons]
    exact ih (d.step c) (step_dispatch_order d c hinv)

/-- C18: for every queue of a freshly constructed scheduler and every sequence of `nextTask`
calls and releases, continued by any further sequence: `specsIndex` does not decrease, never
exceeds `specLists.length`, `specLists` stays the same, and the `j`-th task returned from the
queue carries `specLists[j]`; the spec lists carried by the tasks returned from the queue are
the first spec lists of the queue, in order, each once. -/
theorem specsIndex_monotone_dispatch_in_order (cp : ConfigParser) (config : Config)
    (calls1 calls2 : List Call) (i : Nat) (q1 q2 : TaskQueue)
    (h1 : ((Driver.start (TaskScheduler.new cp config)).run calls1).scheduler.taskQueues[i]? =
      some q1)
    (h2 : ((Driver.start (TaskScheduler.new cp config)).run
      (calls1 ++ calls2)).scheduler.taskQueues[i]? = some q2) :
    q1.specsIndex ≤ q2.specsIndex ∧ q2.specsIndex ≤ q2.specLists.length ∧
      q2.specLists = q1.specLists ∧
      (∀ j t,
        (returnedFrom i
          ((Driver.start (TaskScheduler.new cp config)).run (calls1 ++ calls2)).log)[j]? =
            some t →
          j < q2.specsIndex ∧ q2.specLists[j]? = some t.specs) ∧
      (returnedFrom i
          ((Driver.start (TaskScheduler.new cp config)).run (calls1 ++ calls2)).log).map
        Task.specs =
        q2.specLists.take (if q2.capabilities.buildable then q2.specsIndex else 0) := by
  have hbound := reachable_queue cp config (calls1 ++ calls2) i q2 h2
  obtain ⟨_, _, _, _, _, _, _, hle, _⟩ := hbound
  have h2a := h2
  rw [run_append] at h2a
  obtain ⟨q0, hq0, _, _, hl, hmono, _, _⟩ :=
    run_frame calls2 ((Driver.start (TaskScheduler.new cp config)).run calls1) i q2 h2a
  rw [h1] at hq0
  simp only [Option.some.injEq] at hq0
  subst hq0
  have horder := run_dispatch_order (calls1 ++ calls2)
    (Driver.start (TaskScheduler.new cp config)) (by
      intro k q hq
      obtain ⟨c, _, hc⟩ := new_queue cp config q (List.getElem?_mem hq)
      have e : q.specsIndex = 0 := by rw [hc]; rfl
      simp [Driver.start, returnedFrom, returnedTasks, e]) i q2 h2
  refine ⟨hmono, hle, hl, ?_, horder⟩
  intro j t hj
  have hmap : ((returnedFrom i
      ((Driver.start (TaskScheduler.new cp config)).run (calls1 ++ calls2)).log).map
      Task.specs)[j]? = some t.specs := by
    rw [List.getElem?_map, hj]
    rfl
  rw [horder] at hmap
  have hlt := getElem?_some_lt _ _ _ hmap
  rw [List.length_take] at hlt
  have hj2 : j < q2.specsIndex := by
    by_cases hb : q2.capabilities.buildable
    · rw [if_pos hb] at hlt
      omega
    · rw [if_neg hb] at hlt
      omega
  refine ⟨hj2, ?_⟩
  rw [List.getElem?_take] at hmap
  split at hmap
  · exact hmap
  · simp at hmap

/-- Witness of C18: the queue of the sharded example scheduler after two tasks, and after a
release and a third task. -/
theorem specsIndex_monotone_dispatch_in_order_witness :
    2 ≤ 3 ∧ 3 ≤ [["s1"], ["s2"], ["s3"]].length ∧
      [["s1"], ["s2"], ["s3"]] = [["s1"], ["s2"], ["s3"]] ∧
      (∀ j t,
        (returnedFrom 0
          ((Driver.start (TaskScheduler.new exampleParser
            (exampleConfig ["s1", "s2", "s3"]
              [{ plainCapabilities with maxInstances := some 2, shardTestFiles := true }]))).run
            ([.nextTask, .nextTask] ++ [.done 0, .nextTask])).log)[j]? = some t →
          j < 3 ∧ [["s1"], ["s2"], ["s3"]][j]? = some t.specs) ∧
      (returnedFrom 0
          ((Driver.start (TaskScheduler.new exampleParser
            (exampleConfig ["s1", "s2", "s3"]
              [{ plainCapabilities with maxInstances := some 2, shardTestFiles := true }]))).run
            ([.nextTask, .nextTask] ++ [.done 0, .nextTask])).log).map Task.specs =
        [["s1"], ["s2"], ["s3"]].take 3 :=
  specsIndex_monotone_dispatch_in_order exampleParser
    (exampleConfig ["s1", "s2", "s3"]
      [{ plainCapabilities with maxInstances := some 2, shardTestFiles := true }])
    [.nextTask, .nextTask] [.done 0, .nextTask] 0
    { capabilities :=
        { plainCapabilities with maxInstances := some 2, shardTestFiles := true, count := some 1 }
      numRunningInstances := 2
      maxInstance := 2
      specsIndex := 2
      specLists := [["s1"], ["s2"], ["s3"]] }
    { capabilities :=
        { plainCapabilities with maxInstances := some 2, shardTestFiles := true, count := some 1 }
      numRunningInstances := 2
      maxInstance := 2
      specsIndex := 3
      specLists := [["s1"], ["s2"], ["s3"]] }
    (by decide) (by decide)

/-! ## Task ids -/

theorem toDigitsCore_eq (fuel n : Nat) (acc : List Char) (h : n < fuel) :
    Nat.toDigitsCore 10 fuel n acc =
      (if n = 0 then ['0'] else (Nat.digits 10 n).reverse.map Nat.digitChar) ++ acc := by
  induction fuel generalizing n acc with
  | zero => omega
  | succ fuel ih =>
    unfold Nat.toDigitsCore
    simp only
    by_cases h0 : n / 10 = 0
    · have hlt : n < 10 := by omega
      rw [if_pos h0]
      by_cases hn : n = 0
      · subst hn
        rfl
      · have hpos : 0 < n := Nat.pos_of_ne_zero hn
        rw [if_neg hn, Nat.digits_def' (by decide) hpos, h0]
        simp [Nat.mod_eq_of_lt hlt]
    · have hpos : 0 < n := by
        rcases Nat.eq_zero_or_pos n with h1 | h1
        · subst h1
          simp at h0
        · exact h1
      have hne : n ≠ 0 := by omega
      rw [if_neg h0, ih _ _ (by omega), if_neg h0, if_neg hne, Nat.digits_def' (by decide) hpos]
      simp

theorem toString_data (n : Nat) :
    (toString n).data =
      if n = 0 then ['0'] else (Nat.digits 10 n).reverse.map Nat.digitChar := by
  show Nat.toDigitsCore 10 (n + 1) n [] = _
  rw [toDigitsCore_eq _ _ _ (Nat.lt_succ_self n), List.append_nil]

theorem digitChar_toNat (d : Nat) (h : d < 10) : (Nat.digitChar d).toNat = 48 + d := by
  interval_cases d <;> rfl

theorem digitChar_isDigit (d : Nat) (h : d < 10) : (Nat.digitChar d).isDigit = true := by
  interval_cases d <;> rfl

theorem toString_decode (n : Nat) :
    Nat.ofDigits 10 (((toString n).data.map (fun c => c.toNat - 48)).reverse) = n := by
  rw [toString_data]
  by_cases h : n = 0
  · subst h
    simp
  · rw [if_neg h, List.map_map, ← List.map_reverse, List.reverse_reverse]
    have hd : ∀ d ∈ Nat.digits 10 n, ((fun c : Char => c.toNat - 48) ∘ Nat.digitChar) d = id d := by
      intro d hd
      have := Nat.digits_lt_base (by decide) hd
      simp only [Function.comp, digitChar_toNat d this, id]
      omega
    rw [List.map_congr_left hd, List.map_id, Nat.ofDigits_digits]

theorem toString_injective (a b : Nat) (h : toString a = toString b) : a = b := by
  rw [← toString_decode a, ← toString_decode b, h]

theorem toString_digits (n : Nat) (c : Char) (h : c ∈ (toString n).data) : c.isDigit = true := by
  rw [toString_data] at h
  by_cases hn : n = 0
  · simp [hn] at h
    subst h
    rfl
  · rw [if_neg hn] at h
    simp only [List.mem_map, List.mem_reverse] at h
    obtain ⟨d, hd, rfl⟩ := h
    exact digitChar_isDigit d (Nat.digits_lt_base (by decide) hd)

theorem shardSuffix_not_digit (n : Nat) (c : Char) (h : c ∈ (shardSuffix n).data) :
    c.isDigit = false := by
  rw [shardSuffix_data] at h
  by_cases hn : n = 0
  · simp [hn] at h
    subst h
    rfl
  · rw [if_neg hn] at h
    simp only [List.mem_map, List.mem_reverse] at h
    obtain ⟨d, hd, rfl⟩ := h
    have hlt := Nat.digits_lt_base (by decide : 1 < 26) hd
    interval_cases d <;> rfl

theorem append_split {α : Type} (P : α → Bool) (l1 l2 r1 r2 : List α)
    (hl1 : ∀ x ∈ l1, P x = true) (hl2 : ∀ x ∈ l2, P x = true)
    (hr1 : ∀ x ∈ r1, P x = false) (hr2 : ∀ x ∈ r2, P x = false)
    (h : l1 ++ r1 = l2 ++ r2) : l1 = l2 ∧ r1 = r2 := by
  induction l1 generalizing l2 with
  | nil =>
    cases l2 with
    | nil => exact ⟨rfl, h⟩
    | cons y ys =>
      exfalso
      simp only [List.nil_append, List.cons_append] at h
      have h1 := hr1 y (by rw [h]; exact List.mem_cons_self _ _)
      have h2 := hl2 y (List.mem_cons_self _ _)
      rw [h1] at h2
      exact Bool.noConfusion h2
  | cons x xs ih =>
    cases l2 with
    | nil =>
      exfalso
      simp only [List.nil_append, List.cons_append] at h
      have h1 := hr2 x (by rw [← h]; exact List.mem_cons_self _ _)
      have h2 := hl1 x (List.mem_cons_self _ _)
      rw [h1] at h2
      exact Bool.noConfusion h2
    | cons y ys =>
      simp only [List.cons_append, List.cons.injEq] at h
      obtain ⟨h1, h2⟩ := ih ys (fun z hz => hl1 z (List.mem_cons_of_mem _ hz))
        (fun z hz => hl2 z (List.mem_cons_of_mem _ hz)) h.2
      exact ⟨by rw [h.1, h1], h2⟩

/-- The string rendering of a task id: the position of the queue and the letters appended to
it. -/
theorem taskIdOf_asString (r : Nat) (q : TaskQueue) :
    (taskIdOf r q).asString =
      toString (r + 1) ++ (if q.specLists.length > 1 then shardSuffix q.specsIndex else "") := by
  unfold taskIdOf
  split
  · rfl
  · rw [String.append_empty]
    rfl

/-- A task id determines the position of the queue and the suffix. -/
theorem taskId_split (a b : Nat) (x y : String)
    (hx : ∀ c ∈ x.data, c.isDigit = false) (hy : ∀ c ∈ y.data, c.isDigit = false)
    (h : toString a ++ x = toString b ++ y) : a = b ∧ x = y := by
  have hdata := congrArg String.data h
  simp only [String.data_append] at hdata
  obtain ⟨h1, h2⟩ := append_split Char.isDigit _ _ _ _ (toString_digits a) (toString_digits b)
    hx hy hdata
  exact ⟨toString_injective a b (String.ext h1), String.ext h2⟩

theorem suffix_not_digit (len j : Nat) (c : Char)
    (h : c ∈ (if len > 1 then shardSuffix j else "").data) : c.isDigit = false := by
  split at h
  · exact shardSuffix_not_digit j c h
  · simp at h

/-- The task ids in the log are pairwise different, and each is the position of its queue
followed by the suffix of an index that the queue has already dispatched. -/
theorem step_taskIds (d : Driver) (c : Call)
    (hnodup : ((returnedTasks d.log).map (fun t => t.taskId.asString)).Nodup)
    (hinv : ∀ t ∈ returnedTasks d.log, ∃ q j, d.scheduler.taskQueues[t.queue]? = some q ∧
      j < q.specsIndex ∧
      t.taskId.asString =
        toString (t.queue + 1) ++ (if q.specLists.length > 1 then shardSuffix j else "")) :
    ((returnedTasks (d.step c).log).map (fun t => t.taskId.asString)).Nodup ∧
      ∀ t ∈ returnedTasks (d.step c).log, ∃ q j,
        (d.step c).scheduler.taskQueues[t.queue]? = some q ∧ j < q.specsIndex ∧
        t.taskId.asString =
          toString (t.queue + 1) ++ (if q.specLists.length > 1 then shardSuffix j else "") := by
  cases c with
  | nextTask =>
    rcases step_nextTask_cases d with ⟨_, h1, _, h2⟩ | ⟨r, q, hq, he, h1, h2⟩
    · rw [h1, h2, returnedTasks_append]
      simp only [returnedTasks, List.filterMap_cons, List.filterMap_nil, List.append_nil]
      exact ⟨hnodup, hinv⟩
    · have hr := getElem?_some_lt _ _ _ hq
      -- the tasks already in the log keep their description
      have hold : ∀ t ∈ returnedTasks d.log, ∃ q1 j,
          (d.step .nextTask).scheduler.taskQueues[t.queue]? = some q1 ∧ j < q1.specsIndex ∧
          t.taskId.asString = toString (t.queue + 1) ++
            (if q1.specLists.length > 1 then shardSuffix j else "") := by
        intro t ht
        obtain ⟨q1, j, hq1, hj, hid⟩ := hinv t ht
        rw [h1]
        simp only
        by_cases hi : r = t.queue
        · rw [← hi] at hq1 ⊢
          rw [hq] at hq1
          simp only [Option.some.injEq] at hq1
          subst hq1
          refine ⟨q.claimed, j, List.getElem?_set_self hr, ?_, ?_⟩
          · simp only [TaskQueue.claimed]
            omega
          · rw [hi]
            exact hid
        · exact ⟨q1, j, by rw [List.getElem?_set_ne hi]; exact hq1, hj, hid⟩
      rcases h2 with ⟨_, _, h2⟩ | ⟨_, _, h2⟩
      · rw [h2, returnedTasks_append]
        have hsingle : returnedTasks [NextResult.task (expectedTask r q)] = [expectedTask r q] :=
          rfl
        rw [hsingle]
        constructor
        · rw [List.map_append, List.nodup_append]
          refine ⟨hnodup, by simp, ?_⟩
          intro x hx1 hx2
          simp only [List.map_cons, List.map_nil, List.mem_singleton] at hx2
          simp only [List.mem_map] at hx1
          obtain ⟨t, ht, htx⟩ := hx1
          obtain ⟨q1, j, hq1, hj, hid⟩ := hinv t ht
          have hnew : (expectedTask r q).taskId.asString = (taskIdOf r q).asString := rfl
          rw [hx2, hnew, taskIdOf_asString, hid] at htx
          obtain ⟨e1, e2⟩ := taskId_split _ _ _ _ (suffix_not_digit _ _) (suffix_not_digit _ _) htx
          have e3 : t.queue = r := by omega
          rw [e3, hq] at hq1
          simp only [Option.some.injEq] at hq1
          subst hq1
          by_cases hlen : q.specLists.length > 1
          · rw [if_pos hlen, if_pos hlen] at e2
            have := shardSuffix_injective e2
            omega
          · have := he.2
            omega
        · intro t ht
          rcases List.mem_append.mp ht with h3 | h3
          · exact hold t h3
          · simp only [List.mem_singleton] at h3
            subst h3
            rw [h1]
            refine ⟨q.claimed, q.specsIndex, List.getElem?_set_self hr, ?_, ?_⟩
            · simp only [TaskQueue.claimed]
              omega
            · exact taskIdOf_asString r q
      · rw [h2, returnedTasks_append]
        simp only [returnedTasks, List.filterMap_cons, List.filterMap_nil, List.append_nil]
        exact ⟨hnodup, hold⟩
  | done k =>
    rcases step_done_cases d k with h1 | ⟨t0, _, _, h2, h3⟩
    · rw [h1]
      exact ⟨hnodup, hinv⟩
    · rw [h2]
      refine ⟨hnodup, ?_⟩
      intro t ht
      obtain ⟨q1, j, hq1, hj, hid⟩ := hinv t ht
      rcases h3 with ⟨h3, _⟩ | ⟨q, hq, h3⟩
      · rw [h3]
        exact ⟨q1, j, hq1, hj, hid⟩
      · rw [h3]
        simp only
        by_cases hi : t0.queue = t.queue
        · rw [← hi] at hq1 ⊢
          rw [hq] at hq1
          simp only [Option.some.injEq] at hq1
          subst hq1
          refine ⟨q.released, j, List.getElem?_set_self (getElem?_some_lt _ _ _ hq), hj, ?_⟩
          rw [hi]
          exact hid
        · exact ⟨q1, j, by rw [List.getElem?_set_ne hi]; exact hq1, hj, hid⟩

theorem run_taskIds (calls : List Call) (d : Driver)
    (hnodup : ((returnedTasks d.log).map (fun t => t.taskId.asString)).Nodup)
    (hinv : ∀ t ∈ returnedTasks d.log, ∃ q j, d.scheduler.taskQueues[t.queue]? = some q ∧
      j < q.specsIndex ∧
      t.taskId.asString =
        toString (t.queue + 1) ++ (if q.specLists.length > 1 then shardSuffix j else "")) :
    ((returnedTasks (d.run calls).log).map (fun t => t.taskId.asString)).Nodup := by
  induction calls generalizing d with
  | nil => exact hnodup
  | cons c calls ih =>
    rw [run_cons]
    obtain ⟨h1, h2⟩ := step_taskIds d c hnodup hinv
    exact ih (d.step c) h1 h2

/-- C19: for every scheduler, starting with an empty log, and every sequence of `nextTask` calls
and releases, the tasks returned by different `nextTask` calls have different `taskId` values,
whether they come from one queue or from several, replicas of one capability entry
included; even the string renderings of the `taskId` values are pairwise different. -/
theorem taskIds_unique (s : TaskScheduler) (calls : List Call) :
    ((returnedTasks ((Driver.start s).run calls).log).map Task.taskId).Nodup ∧
      (∀ (a b : Nat) (t1 t2 : Task),
        (returnedTasks ((Driver.start s).run calls).log)[a]? = some t1 →
        (returnedTasks ((Driver.start s).run calls).log)[b]? = some t2 → a ≠ b →
        t1.taskId ≠ t2.taskId) ∧
      ((returnedTasks ((Driver.start s).run calls).log).map
        (fun t => t.taskId.asString)).Nodup := by
  have hrender := run_taskIds calls (Driver.start s) (by simp [Driver.start, returnedTasks])
    (by simp [Driver.start, returnedTasks])
  have hnodup : ((returnedTasks ((Driver.start s).run calls).log).map Task.taskId).Nodup := by
    apply List.Nodup.of_map TaskId.asString
    rw [List.map_map]
    exact hrender
  refine ⟨hnodup, ?_, hrender⟩
  intro a b t1 t2 h1 h2 hab heq
  have ha := getElem?_some_lt _ _ _ h1
  have hb := getElem?_some_lt _ _ _ h2
  have e1 : ((returnedTasks ((Driver.start s).run calls).log).map Task.taskId)[a]? =
      some t1.taskId := by rw [List.getElem?_map, h1]; rfl
  have e2 : ((returnedTasks ((Driver.start s).run calls).log).map Task.taskId)[b]? =
      some t1.taskId := by rw [List.getElem?_map, h2, heq]; rfl
  have hla : a < ((returnedTasks ((Driver.start s).run calls).log).map Task.taskId).length := by
    simpa using ha
  have hlb : b < ((returnedTasks ((Driver.start s).run calls).log).map Task.taskId).length := by
    simpa using hb
  rw [List.getElem?_eq_getElem hla] at e1
  rw [List.getElem?_eq_getElem hlb] at e2
  have := (List.Nodup.getElem_inj_iff hnodup).mp (Option.some.inj (e1.trans e2.symm))
  exact hab this

/-- Witness of C19: the two replicas of `multiCapabilities: [{count: 2, maxInstances: 1}, {}]`
return tasks with the ids 1 and 2. -/
theorem taskIds_unique_witness :
    (returnedTasks ((Driver.start (TaskScheduler.new exampleParser replicaConfig)).run
        [.nextTask, .nextTask]).log).map Task.taskId = [.num 1, .num 2] ∧
      ((returnedTasks ((Driver.start (TaskScheduler.new exampleParser replicaConfig)).run
        [.nextTask, .nextTask]).log).map Task.taskId).Nodup :=
  ⟨by decide,
    (taskIds_unique (TaskScheduler.new exampleParser replicaConfig) [.nextTask, .nextTask]).1⟩

end Protractor
